import Mathlib

/-!
# CPI header extractor: placeholder resolution and header-table extraction

A shallow embedding of `src/steps/step4_extractHeaders.js`,
`src/utils/xmlParser.js`, `src/utils/propParser.js`, the record loop of
`src/steps/step5_exportExcel.js`, and the `/extract` handler of `index.js` with
`extractor.js`, all of the `cpi-extractor` package.

JavaScript strings are modelled by `String`; every string primitive the source
uses (`trim`, `replace` with a global pattern, the regular expression
`PLACEHOLDER_RE`) is defined on the underlying character list.  A character
outside the basic plane is two code units in JavaScript, neither of them a line
terminator or white space, so the character classes below agree with the
code-unit ones.  The markup
parser `parseXml` (a wrapper around the third-party `xml2js`) is not part of the
repository and is a parameter of every function that calls it.
-/

set_option autoImplicit false

namespace CpiExtractor

/-! ## Section 1: string primitives -/

/-- ECMAScript `LineTerminator`: LF, CR, LS, PS.  The `.` of a regular
expression without the `s` flag matches every character but these. -/
def isLineTerminator (c : Char) : Bool :=
  c.toNat == 0x0A || c.toNat == 0x0D || c.toNat == 0x2028 || c.toNat == 0x2029

/-- ECMAScript `WhiteSpace` (TAB, VT, FF, SP, NBSP, ZWNBSP and the Unicode
space separators) together with `LineTerminator`: what `String.prototype.trim`
strips. -/
def isJsWhiteSpace (c : Char) : Bool :=
  c.toNat == 0x09 || c.toNat == 0x0B || c.toNat == 0x0C || c.toNat == 0x20 ||
  c.toNat == 0xA0 || c.toNat == 0xFEFF || c.toNat == 0x1680 ||
  (0x2000 ≤ c.toNat && c.toNat ≤ 0x200A) ||
  c.toNat == 0x202F || c.toNat == 0x205F || c.toNat == 0x3000 ||
  isLineTerminator c

/-- `String.prototype.trim` on a character list. -/
def trimChars (s : List Char) : List Char :=
  ((s.dropWhile isJsWhiteSpace).reverse.dropWhile isJsWhiteSpace).reverse

/-- `String.prototype.trim`. -/
def jsTrim (s : String) : String := String.mk (trimChars s.data)

/-- Whether `pat` occurs at the head of the list. -/
def startsWithChars : List Char → List Char → Bool
  | [], _ => true
  | _ :: _, [] => false
  | p :: ps, c :: cs => p == c && startsWithChars ps cs

/-- The scan of `str.replace(/pat/g, rep)` for a literal, non-empty pattern:
left to right, every non-overlapping occurrence of `pat` is replaced by `rep`.
The first argument counts the characters of a matched occurrence still to be
skipped. -/
def replaceAllGo (pat rep : List Char) : Nat → List Char → List Char
  | _, [] => []
  | skip + 1, _ :: cs => replaceAllGo pat rep skip cs
  | 0, c :: cs =>
    if startsWithChars pat (c :: cs) then rep ++ replaceAllGo pat rep (pat.length - 1) cs
    else c :: replaceAllGo pat rep 0 cs

/-- `str.replace(/pat/g, rep)` for a literal pattern. -/
def replaceAll (pat rep : String) (s : List Char) : List Char :=
  replaceAllGo pat.data rep.data 0 s

/-- `decodeHtmlEntities` of `utils/xmlParser.js`: five global replacements, in
the order of the source. -/
def decodeHtmlEntities (str : String) : String :=
  String.mk
    (replaceAll "&apos;" (String.singleton (Char.ofNat 39))
      (replaceAll "&quot;" "\""
        (replaceAll "&amp;" "&"
          (replaceAll "&gt;" ">"
            (replaceAll "&lt;" "<" str.data)))))

/-- The standard entity encoding of one character. -/
def escapeChar (c : Char) : List Char :=
  if c = '&' then "&amp;".data
  else if c = '<' then "&lt;".data
  else if c = '>' then "&gt;".data
  else if c = '"' then "&quot;".data
  else if c = Char.ofNat 39 then "&apos;".data
  else [c]

/-- The standard entity encoding of a string (the inverse that
`decodeHtmlEntities` is meant to undo): every `&`, `<`, `>`, double quote and
apostrophe is replaced by its entity. -/
def escapeXml (s : String) : String := String.mk (s.data.flatMap escapeChar)

/-! ## Section 2: the placeholder pattern and `resolveValue` -/

/-- The lazy group `(.+?)` of `PLACEHOLDER_RE` followed by the rest of the
pattern `\}\}$`, as the backtracking matcher runs it: `acc` is what the group
has consumed so far; the continuation `\}\}$` is tried first, and only when it
fails is the group extended by one more `.` character; at the end of the input
neither is possible. -/
def lazyGroup : List Char → List Char → Option (List Char)
  | _, [] => none
  | acc, c :: cs =>
    if c :: cs = ['}', '}'] then some acc
    else if isLineTerminator c then none
    else lazyGroup (acc ++ [c]) cs

/-- `PLACEHOLDER_RE.exec(s)` for `PLACEHOLDER_RE = /^\{\{(.+?)\}\}$/`: the
capture group `match[1]` on a match, `none` for `null`.  The pattern starts with
`^` and has no `m` flag, so a match can only start at index 0. -/
def placeholderExec (s : List Char) : Option (List Char) :=
  match s with
  | '{' :: '{' :: c :: cs => if isLineTerminator c then none else lazyGroup [c] cs
  | _ => none

/-- A JavaScript object with string values: its own properties in insertion
order.  `paramMap` and `cellMap` are such objects. -/
abbrev JsObj := List (String × String)

/-- `Object.prototype.hasOwnProperty.call(o, k)`. -/
def JsObj.hasOwn (o : JsObj) (k : String) : Bool := (o.lookup k).isSome

/-- `o[k]` for an own property `k` (`none` for `undefined`). -/
def JsObj.get? (o : JsObj) (k : String) : Option String := o.lookup k

/-- `o[k] = v` on an object created by `{}`: the own property is overwritten in
place or appended; the key `__proto__` reaches the prototype setter, which
ignores a string, and creates no own property. -/
def JsObj.set (o : JsObj) (k v : String) : JsObj :=
  if k = "__proto__" then o
  else if o.hasOwn k then o.map (fun kv => if kv.1 = k then (k, v) else kv)
  else o ++ [(k, v)]

/-- What `resolveValue` returns. -/
structure Resolution where
  isPlaceholder : Bool
  resolvedValue : String
  resolvedFrom : String
  deriving DecidableEq, Repr

/-- `resolveValue` of `steps/step4_extractHeaders.js`. -/
def resolveValue (rawValue : String) (paramMap : JsObj) : Resolution :=
  match placeholderExec rawValue.data with
  | none =>
    { isPlaceholder := false, resolvedValue := rawValue, resolvedFrom := "direct" }
  | some key =>
    let placeholderKey := String.mk key
    if paramMap.hasOwn placeholderKey then
      { isPlaceholder := true
        resolvedValue := (paramMap.get? placeholderKey).getD ""
        resolvedFrom := "parameters.prop" }
    else
      { isPlaceholder := true, resolvedValue := rawValue, resolvedFrom := "NOT_FOUND" }

/-- `PLACEHOLDER_RE.test(s)`: whether the raw value matches the pattern. -/
def matchesPlaceholder (s : String) : Bool := (placeholderExec s.data).isSome

/-- The text `{{k}}`: two opening braces, `k`, two closing braces. -/
def braced (k : String) : String := "\x7b\x7b" ++ k ++ "\x7d\x7d"

/-! ## Section 3: the parsed shapes

The objects `xml2js` produces (options `explicitArray`, `explicitCharkey`,
`attrkey: "$"`, `charkey: "_"`), with one optional field for every access the
source guards by `?.` and `??`. -/

/-- A `<cell>` of an embedded header table: `cell.$.id` and `cell._`. -/
structure Cell where
  id : Option String
  text : Option String
  deriving DecidableEq, Repr

/-- A `<row>` of an embedded header table: `row.cell`. -/
structure Row where
  cell : Option (List Cell)
  deriving DecidableEq, Repr

/-- The parse of the wrapped header table: `parsed.table.row`. -/
structure ParsedTable where
  row : Option (List Row)
  deriving DecidableEq, Repr

/-- The markup parser `parseXml`: it resolves to a parsed table or rejects
with an error message. -/
abbrev XmlParser := String → Except String ParsedTable

/-- A `key` or `value` child of a property: a bare string, or an object with an
optional text `_`. -/
inductive TextNode where
  | str (s : String)
  | obj (text : Option String)
  deriving DecidableEq, Repr

/-- An `ifl:property` element: `prop.key` and `prop.value`. -/
structure Property where
  key : Option (List TextNode)
  value : Option (List TextNode)
  deriving DecidableEq, Repr

/-- A `bpmn2:extensionElements` element: its `ifl:property` children. -/
structure ExtensionElements where
  property : Option (List Property)
  deriving DecidableEq, Repr

/-- A `bpmn2:callActivity` element: `ca.$.id`, `ca.$.name` and
`ca["bpmn2:extensionElements"]`. -/
structure CallActivity where
  id : Option String
  name : Option String
  extensionElements : Option (List ExtensionElements)
  deriving DecidableEq, Repr

/-- A `bpmn2:subProcess` element. -/
structure SubProcess where
  callActivity : Option (List CallActivity)
  deriving DecidableEq, Repr

/-- A `bpmn2:process` element. -/
structure Process where
  callActivity : Option (List CallActivity)
  subProcess : Option (List SubProcess)
  deriving DecidableEq, Repr

/-- The `bpmn2:definitions` element. -/
structure Definitions where
  process : Option (List Process)
  deriving DecidableEq, Repr

/-- The parsed `.iflw` document. -/
structure IflwParsed where
  definitions : Option Definitions
  deriving DecidableEq, Repr

/-- One element of the result array. -/
structure HeaderRecord where
  callActivityId : String
  callActivityName : String
  headerName : String
  rawValue : String
  resolvedValue : String
  isPlaceholder : Bool
  resolvedFrom : String
  deriving DecidableEq, Repr

/-! ## Section 4: `parseHeaderTable`, `processCallActivities`, `extractHeaders` -/

/-- The inner loop of `parseHeaderTable`: `cellMap[id] = text` for every cell. -/
def buildCellMap (cells : List Cell) : JsObj :=
  cells.foldl (fun cellMap cell => cellMap.set (cell.id.getD "") (cell.text.getD "")) []

/-- The body of the row loop of `parseHeaderTable`: `results` after the row. -/
def rowStep (callActivityId callActivityName : String) (paramMap : JsObj)
    (results : List HeaderRecord) (row : Row) : List HeaderRecord :=
  let cells := row.cell.getD []
  let cellMap := buildCellMap cells
  match cellMap.get? "Name" with
  | none => results
  | some headerName =>
    let rawValue := (cellMap.get? "Value").getD ""
    let r := resolveValue rawValue paramMap
    results ++ [{ callActivityId := callActivityId
                  callActivityName := callActivityName
                  headerName := headerName
                  rawValue := rawValue
                  resolvedValue := r.resolvedValue
                  isPlaceholder := r.isPlaceholder
                  resolvedFrom := r.resolvedFrom }]

/-- What `parseHeaderTable` hands to `parseXml`: the trimmed raw value,
entity-decoded and wrapped in a `<table>` root. -/
def wrapTable (rawXmlValue : String) : String :=
  "<table>" ++ decodeHtmlEntities (jsTrim rawXmlValue) ++ "</table>"

/-- `parseHeaderTable` of `steps/step4_extractHeaders.js`.  The warning written
to the console when the parser rejects is not modelled. -/
def parseHeaderTable (parseXml : XmlParser) (rawXmlValue callActivityId callActivityName : String)
    (paramMap : JsObj) : List HeaderRecord :=
  let trimmed := jsTrim rawXmlValue
  if trimmed = "" then []
  else
    match parseXml (wrapTable rawXmlValue) with
    | .error _ => []
    | .ok parsed =>
      let rows := parsed.row.getD []
      rows.foldl (rowStep callActivityId callActivityName paramMap) []

/-- `keyArr[0]?._ ?? keyArr[0] ?? ""`: a string, or `none` when the value is an
object without text (which is not `=== "headerTable"`). -/
def propKeyOf (keyArr : List TextNode) : Option String :=
  match keyArr.head? with
  | none => some ""
  | some (.str s) => some s
  | some (.obj (some t)) => some t
  | some (.obj none) => none

/-- The raw value of a property: `valueArr[0]` when it is a string, its `_`
when that is a string, and `""` otherwise. -/
def rawValueOf (valueArr : List TextNode) : String :=
  match valueArr.head? with
  | some (.str s) => s
  | some (.obj (some t)) => t
  | some (.obj none) => ""
  | none => ""

/-- The sentinel pushed for an empty header table. -/
def sentinelRecord (caId caName : String) : HeaderRecord :=
  { callActivityId := caId
    callActivityName := caName
    headerName := "(empty headerTable)"
    rawValue := ""
    resolvedValue := ""
    isPlaceholder := false
    resolvedFrom := "direct" }

/-- The body of the property loop of `processCallActivities`. -/
def propStep (parseXml : XmlParser) (paramMap : JsObj) (caId caName : String)
    (allResults : List HeaderRecord) (prop : Property) : List HeaderRecord :=
  let keyArr := prop.key.getD []
  let valueArr := prop.value.getD []
  if propKeyOf keyArr ≠ some "headerTable" then allResults
  else
    let rawValue := rawValueOf valueArr
    let headerRows := parseHeaderTable parseXml rawValue caId caName paramMap
    let allResults := allResults ++ headerRows
    if headerRows.length = 0 ∧ jsTrim rawValue = "" then
      allResults ++ [sentinelRecord caId caName]
    else allResults

/-- The properties the loop runs over: those of the first
`bpmn2:extensionElements` element,
`(ca["bpmn2:extensionElements"] ?? [])[0]?.["ifl:property"] ?? []`. -/
def caProperties (ca : CallActivity) : List Property :=
  let extensionElements := ca.extensionElements.getD []
  (extensionElements.head?.bind (fun e => e.property)).getD []

/-- The body of the call-activity loop of `processCallActivities`. -/
def caStep (parseXml : XmlParser) (paramMap : JsObj)
    (allResults : List HeaderRecord) (ca : CallActivity) : List HeaderRecord :=
  let caId := ca.id.getD "Unknown_ID"
  let caName := ca.name.getD "Unnamed"
  let properties := caProperties ca
  properties.foldl (propStep parseXml paramMap caId caName) allResults

/-- `processCallActivities` of `steps/step4_extractHeaders.js`. -/
def processCallActivities (parseXml : XmlParser) (callActivities : List CallActivity)
    (paramMap : JsObj) : List HeaderRecord :=
  callActivities.foldl (caStep parseXml paramMap) []

/-- The call-activities `extractHeaders` passes on for one process:
`[...directCAs, ...subCAs]`. -/
def allCAs (process : Process) : List CallActivity :=
  let directCAs := process.callActivity.getD []
  let subProcesses := process.subProcess.getD []
  let subCAs := subProcesses.flatMap (fun sp => sp.callActivity.getD [])
  directCAs ++ subCAs

/-- The process nodes of the document:
`(iflwParsed?.["bpmn2:definitions"] ?? {})?.["bpmn2:process"] ?? []`. -/
def processesOf (iflwParsed : IflwParsed) : List Process :=
  (iflwParsed.definitions.bind (fun d => d.process)).getD []

/-- `extractHeaders` of `steps/step4_extractHeaders.js`; a thrown `Error` is
`Except.error` with its message. -/
def extractHeaders (parseXml : XmlParser) (iflwParsed : IflwParsed) (paramMap : JsObj) :
    Except String (List HeaderRecord) :=
  let processes := processesOf iflwParsed
  if processes.length = 0 then
    .error "No <bpmn2:process> found in the iflow XML."
  else
    .ok (processes.foldl
      (fun allResults process =>
        allResults ++ processCallActivities parseXml (allCAs process) paramMap) [])


/-! ## Section 4b: the row contract in the words of the specification -/

/-- The text of the last cell of the row whose `id` attribute is `id` (a cell
without text has the text `""`); `none` when the row has no such cell. -/
def lastCellText (cells : List Cell) (id : String) : Option String :=
  ((cells.filter (fun c => c.id = some id)).getLast?).map (fun c => c.text.getD "")

/-- The record the specification gives for a row: none without a `Name` cell;
otherwise the name is the text of the `Name` cell, the raw value the text of the
`Value` cell or `""`, and the resolution fields come from `resolveValue`. -/
def rowRecord? (callActivityId callActivityName : String) (paramMap : JsObj) (row : Row) :
    Option HeaderRecord :=
  match lastCellText (row.cell.getD []) "Name" with
  | none => none
  | some headerName =>
    let rawValue := (lastCellText (row.cell.getD []) "Value").getD ""
    some { callActivityId := callActivityId
           callActivityName := callActivityName
           headerName := headerName
           rawValue := rawValue
           resolvedValue := (resolveValue rawValue paramMap).resolvedValue
           isPlaceholder := (resolveValue rawValue paramMap).isPlaceholder
           resolvedFrom := (resolveValue rawValue paramMap).resolvedFrom }

/-- Whether a property is a `headerTable` property: its key is exactly
`headerTable`. -/
def isHeaderTable (prop : Property) : Bool :=
  propKeyOf (prop.key.getD []) = some "headerTable"

/-- The raw text of a property's value. -/
def rawText (prop : Property) : String := rawValueOf (prop.value.getD [])

/-- A property with the key and value text given, in the shape `xml2js`
produces with `explicitCharkey`. -/
def mkProperty (key value : String) : Property :=
  { key := some [.obj (some key)], value := some [.obj (some value)] }

/-- A call-activity with the id, name and properties given. -/
def mkCallActivity (id name : String) (props : List Property) : CallActivity :=
  { id := some id, name := some name, extensionElements := some [{ property := some props }] }

/-- A header row with a `Name` and a `Value` cell. -/
def mkRow (name value : String) : Row :=
  { cell := some [{ id := some "Name", text := some name },
                  { id := some "Value", text := some value }] }

/-- A sample parsed table: a full row, a row without a `Name` cell, and a row
whose `Name` cell is empty and that has no `Value` cell. -/
def sampleTable : ParsedTable :=
  { row := some [mkRow "H1" "\x7b\x7bK\x7d\x7d",
                 { cell := some [{ id := some "Value", text := some "v2" }] },
                 { cell := some [{ id := some "Name", text := none }] }] }

/-- A parser that accepts the text `<table><ok/></table>` with the sample table,
the text `<table><one/></table>` with one row `H2 = v2`, and rejects every other
text. -/
def sampleParser : XmlParser := fun s =>
  if s = "<table><ok/></table>" then .ok sampleTable
  else if s = "<table><one/></table>" then .ok { row := some [mkRow "H2" "v2"] }
  else .error "Unclosed root tag"

/-- A sample document: one process with the direct call-activity `A`, whose
header table is the sample table, and one sub-process with the call-activity
`B`, whose header table is the row `H2 = v2`. -/
def sampleDocument : IflwParsed :=
  { definitions := some
      { process := some
          [{ callActivity := some [mkCallActivity "A" "Direct" [mkProperty "headerTable" "&lt;ok/&gt;"]]
             subProcess := some
               [{ callActivity := some
                    [mkCallActivity "B" "Nested" [mkProperty "headerTable" "&lt;one/&gt;"]] }] }] } }

/-- A sample document whose only call-activity has a header table that the
sample parser rejects. -/
def rejectedDocument : IflwParsed :=
  { definitions := some
      { process := some
          [{ callActivity := some
               [mkCallActivity "A" "Direct" [mkProperty "headerTable" "&lt;row&gt;"]]
             subProcess := none }] } }

/-- A sample document with a definitions node and no process node. -/
def emptyDocument : IflwParsed :=
  { definitions := some { process := some [] } }

/-- The raw value with its first two and its last two characters removed. -/
def innerKey (v : String) : String := String.mk ((v.data.drop 2).dropLast.dropLast)

/-- The call-activity with every property whose key is not `headerTable`
removed. -/
def keepHeaderTable (ca : CallActivity) : CallActivity :=
  { ca with
    extensionElements := ca.extensionElements.map (fun es =>
      es.map (fun e => { property := e.property.map (fun ps => ps.filter isHeaderTable) })) }

/-- The call-activities in the order `extractHeaders` visits them. -/
def navigatorCAs (iflwParsed : IflwParsed) : List CallActivity :=
  (processesOf iflwParsed).flatMap allCAs

/-- The rows `parseHeaderTable` iterates over: none for a blank raw value or
when the parser rejects, `parsed?.table?.row ?? []` otherwise. -/
def decodedRows (parseXml : XmlParser) (rawXmlValue : String) : List Row :=
  if jsTrim rawXmlValue = "" then []
  else
    match parseXml (wrapTable rawXmlValue) with
    | .error _ => []
    | .ok parsed => parsed.row.getD []

/-- The header count `runExtractor` reports (`extractor.js`, also computed in
the `/extract` handler):
`results.filter((r) => r.headerName !== "(empty headerTable)").length`. -/
def headerCount (results : List HeaderRecord) : Nat :=
  (results.filter (fun r => decide (r.headerName ≠ "(empty headerTable)"))).length

/-- Whether a decoded row has a cell with id `Name`. -/
def hasNameCell (row : Row) : Bool :=
  (row.cell.getD []).any (fun c => decide (c.id = some "Name"))

/-- Whether a decoded row has a `Name` cell whose text is not the reserved
sentinel name. -/
def hasCountedName (row : Row) : Bool :=
  match lastCellText (row.cell.getD []) "Name" with
  | none => false
  | some headerName => decide (headerName ≠ "(empty headerTable)")

/-- All decoded rows of a document: those of every `headerTable` property of
every call-activity, in the order of the extraction. -/
def allDecodedRows (parseXml : XmlParser) (iflwParsed : IflwParsed) : List Row :=
  (navigatorCAs iflwParsed).flatMap (fun ca =>
    ((caProperties ca).filter isHeaderTable).flatMap (fun prop =>
      decodedRows parseXml (rawText prop)))

/-- A parser that answers every text with one row whose `Name` cell holds the
reserved sentinel name. -/
def reservedNameParser : XmlParser := fun _ =>
  .ok { row := some [mkRow "(empty headerTable)" "x"] }

/-! ## Section 4c: `parsePropContent` of `utils/propParser.js` -/

/-- The scan of `content.split(/\r?\n/)`: a line feed, alone or after a
carriage return, ends the current line; a carriage return that no line feed
follows is an ordinary character. -/
def splitLinesGo : List Char → List Char → List (List Char)
  | cur, [] => [cur]
  | cur, c :: rest =>
    if c = '\n' then cur :: splitLinesGo [] rest
    else if c = '\r' ∧ rest.head? = some '\n' then splitLinesGo cur rest
    else splitLinesGo (cur ++ [c]) rest

/-- The lines `content.split(/\r?\n/)`. -/
def splitLines (content : String) : List String :=
  (splitLinesGo [] content.data).map String.mk

/-- The index `line.indexOf("=")`, `none` for `-1`. -/
def indexOfEq (line : List Char) : Option Nat :=
  if line.findIdx (fun c => c == '=') < line.length then
    some (line.findIdx (fun c => c == '='))
  else none

/-- The body of the line loop of `parsePropContent`: the map after the line. -/
def propLineStep (map : JsObj) (rawLine : String) : JsObj :=
  let line := jsTrim rawLine
  if line = "" ∨ line.data.head? = some '#' then map
  else
    match indexOfEq line.data with
    | none => map
    | some eqIndex =>
      let key := jsTrim (String.mk (line.data.take eqIndex))
      let value := jsTrim (String.mk (line.data.drop (eqIndex + 1)))
      map.set key value

/-- `parsePropContent` of `utils/propParser.js`. -/
def parsePropContent (content : String) : JsObj :=
  (splitLines content).foldl propLineStep []

/-- The entry a line stands for in the words of the specification: none for a
line that is blank after trimming, starts with `#` or holds no `=`; otherwise
the trimmed text before the first `=` and the trimmed text after it. -/
def propEntry? (rawLine : String) : Option (String × String) :=
  let line := (jsTrim rawLine).data
  if line = [] then none
  else if line.head? = some '#' then none
  else if '=' ∈ line then
    some (jsTrim (String.mk (line.takeWhile (fun c => c != '='))),
          jsTrim (String.mk ((line.dropWhile (fun c => c != '=')).drop 1)))
  else none

/-- The value the specification gives a key: that of the last line whose entry
has the key. -/
def lastEntryValue (content : String) (k : String) : Option String :=
  ((((splitLines content).filterMap propEntry?).filter (fun e => decide (e.1 = k))).getLast?).map
    (fun e => e.2)

/-! ## Section 4d: the `/extract` handler of `index.js` and `exportBatchToExcel` -/

/-- One element of `batchResults`: what `runExtractor` resolves to. -/
structure BatchEntry where
  iflowName : String
  results : List HeaderRecord
  deriving DecidableEq, Repr

/-- The `response` of an HTTP error: its status as text, and
`JSON.stringify(err.response.data)` when the data is truthy. -/
structure HttpErrorResponse where
  status : String
  data : Option String
  deriving DecidableEq, Repr

/-- What `runExtractor` throws: an error with a message and, for an HTTP
error, a response. -/
structure ExtractorError where
  response : Option HttpErrorResponse
  message : String
  deriving DecidableEq, Repr

/-- `buildErrorMessage` of `index.js`. -/
def buildErrorMessage (err : ExtractorError) : String :=
  match err.response with
  | some response =>
    let msg :=
      match response.data with
      | some json => String.mk (json.data.take 200)
      | none => err.message
    "HTTP " ++ response.status ++ " — " ++ msg
  | none => err.message

/-- `runExtractor` of `extractor.js`.  Its steps (download, unzip, parse the
parameters and the document, `extractHeaders`) are the parameter `pipeline`,
which gives the results or throws; the iflow name is returned with them. -/
def runExtractor (pipeline : String → String → Except ExtractorError (List HeaderRecord))
    (iflowName token : String) : Except ExtractorError BatchEntry :=
  match pipeline iflowName token with
  | .error err => .error err
  | .ok results => .ok { iflowName := iflowName, results := results }

/-- One element of the `failed` array. -/
structure FailedEntry where
  iflow : String
  error : String
  deriving DecidableEq, Repr

/-- The two arrays the handler fills. -/
structure LoopState where
  failed : List FailedEntry
  batchResults : List BatchEntry
  deriving DecidableEq, Repr

/-- The body of the iflow loop of the handler: `try` the extractor, push to
`batchResults`; `catch`, push to `failed`. -/
def iflowStep (pipeline : String → String → Except ExtractorError (List HeaderRecord))
    (token : String) (st : LoopState) (iflowName : String) : LoopState :=
  match runExtractor pipeline iflowName token with
  | .ok r =>
    { st with batchResults := st.batchResults ++ [{ iflowName := r.iflowName, results := r.results }] }
  | .error err =>
    { st with failed := st.failed ++ [{ iflow := iflowName, error := buildErrorMessage err }] }

/-- The iflow loop of the handler. -/
def extractLoop (pipeline : String → String → Except ExtractorError (List HeaderRecord))
    (token : String) (iflows : List String) : LoopState :=
  iflows.foldl (iflowStep pipeline token) { failed := [], batchResults := [] }

/-- The `summary` of the response. -/
structure Summary where
  total : Nat
  processed : Nat
  failed : Nat
  deriving DecidableEq, Repr

/-- The responses of the handler: status 400, the completed report, status 500. -/
inductive ExtractResponse where
  | badRequest
  | completed (file : Option String) (summary : Summary) (failed : Option (List FailedEntry))
  | fatal (message : String)
  deriving DecidableEq, Repr

/-- The `/extract` handler of `index.js`.  `iflows` is `none` when the body
holds no array; `getToken` and `exportBatch` (the file effect of
`exportBatchToExcel`: the path written, or a rejection) are parameters. -/
def postExtract (iflows : Option (List String)) (getToken : Except String String)
    (pipeline : String → String → Except ExtractorError (List HeaderRecord))
    (exportBatch : List BatchEntry → Except String String) : ExtractResponse :=
  match iflows with
  | none => .badRequest
  | some iflows =>
    if iflows.length = 0 then .badRequest
    else
      match getToken with
      | .error message => .fatal message
      | .ok token =>
        let st := extractLoop pipeline token iflows
        let exported : Except String (Option String) :=
          if st.batchResults.length > 0 then
            match exportBatch st.batchResults with
            | .error message => .error message
            | .ok path => .ok (some path)
          else .ok none
        match exported with
        | .error message => .fatal message
        | .ok filePath =>
          .completed filePath
            { total := iflows.length
              processed := st.batchResults.length
              failed := st.failed.length }
            (if st.failed.length > 0 then some st.failed else none)

/-- Whether the extraction of an iflow succeeds. -/
def extractionSucceeds (pipeline : String → String → Except ExtractorError (List HeaderRecord))
    (token iflowName : String) : Bool :=
  match pipeline iflowName token with
  | .ok _ => true
  | .error _ => false

/-- A row of the `Headers` sheet, by column key. -/
structure SheetRow where
  iflowName : String
  callActivityName : String
  callActivityId : String
  headerName : String
  resolvedValue : String
  rawValue : String
  resolvedFrom : String
  deriving DecidableEq, Repr

/-- The object `exportBatchToExcel` passes to `ws.addRow` for a record. -/
def sheetRowOf (iflowName : String) (row : HeaderRecord) : SheetRow :=
  { iflowName := iflowName
    callActivityName := row.callActivityName
    callActivityId := row.callActivityId
    headerName := row.headerName
    resolvedValue := if row.resolvedFrom = "NOT_FOUND" then "(NOT FOUND)" else row.resolvedValue
    rawValue := row.rawValue
    resolvedFrom := row.resolvedFrom }

/-- The header row that `ws.columns = COLUMN_DEFS` writes into row 1: the
`header` of every column definition under its `key`. -/
def headerRow : SheetRow :=
  { iflowName := "iFlow Name"
    callActivityName := "CallActivity Name"
    callActivityId := "CallActivity ID"
    headerName := "Header Name"
    resolvedValue := "Resolved Value"
    rawValue := "Raw Value"
    resolvedFrom := "Source" }

/-- The output file as `exportBatchToExcel` finds it: absent, a workbook without
a `Headers` sheet, or a workbook with a `Headers` sheet and its rows (columns A
to G of a row under the seven column keys; `none` is a row without cells). -/
inductive OutputFile where
  | absent
  | withoutSheet
  | withSheet (rows : List (Option SheetRow))
  deriving DecidableEq, Repr

/-- The worksheet object the rows are added to: whether column keys are defined
on it (`ws.columns = COLUMN_DEFS` was executed on this object) and its rows. -/
structure Worksheet where
  hasColumnKeys : Bool
  rows : List (Option SheetRow)
  deriving DecidableEq, Repr

/-- The worksheet `exportBatchToExcel` starts from.  A sheet it creates (the
file is absent, or the workbook has no `Headers` sheet) gets
`ws.columns = COLUMN_DEFS`, which defines the column keys and writes the header
row; a `Headers` sheet read from an existing file is used as it was read, and
the source does not assign `ws.columns` on that path, so it has no column
keys. -/
def openWorksheet : OutputFile → Worksheet
  | .absent => { hasColumnKeys := true, rows := [some headerRow] }
  | .withoutSheet => { hasColumnKeys := true, rows := [some headerRow] }
  | .withSheet rows => { hasColumnKeys := false, rows := rows }

/-- `ws.addRow(values)` for an object keyed by column key: a row is appended
below the last row; its cells are filled through the column keys, so on a
worksheet without column keys the appended row has no cell. -/
def Worksheet.addRow (ws : Worksheet) (values : SheetRow) : Worksheet :=
  { ws with rows := ws.rows ++ [if ws.hasColumnKeys then some values else none] }

/-- The body of the record loop of `exportBatchToExcel`: a record named
`(empty headerTable)` is skipped, every other record is passed to `ws.addRow`. -/
def exportRowStep (iflowName : String) (ws : Worksheet) (row : HeaderRecord) : Worksheet :=
  if row.headerName = "(empty headerTable)" then ws
  else ws.addRow (sheetRowOf iflowName row)

/-- The worksheet `exportBatchToExcel` of `steps/step5_exportExcel.js` writes,
given the output file it finds.  Cell styling, the auto-filter and the
rejections of file access are not modelled. -/
def exportBatchToExcel (file : OutputFile) (batchResults : List BatchEntry) : Worksheet :=
  batchResults.foldl
    (fun ws entry => entry.results.foldl (exportRowStep entry.iflowName) ws)
    (openWorksheet file)

/-- A batch of one iflow whose only record is the sentinel of the call-activity
`CA1`. -/
def sentinelBatch : List BatchEntry :=
  [{ iflowName := "Flow", results := [sentinelRecord "CA1" "Set Headers"] }]

/-- A sample pipeline: the iflow `Bad` is not found, every other iflow has one
header. -/
def samplePipeline : String → String → Except ExtractorError (List HeaderRecord) :=
  fun iflowName _ =>
    if iflowName = "Bad" then
      .error { response := some { status := "404", data := none }, message := "not found" }
    else
      .ok [{ callActivityId := "CA1", callActivityName := iflowName, headerName := "H",
             rawValue := "v", resolvedValue := "v", isPlaceholder := false,
             resolvedFrom := "direct" }]

/-- The record of the row `H1` of the sample document on the empty map. -/
def sampleUnresolved : HeaderRecord :=
  { callActivityId := "A", callActivityName := "Direct", headerName := "H1",
    rawValue := "\x7b\x7bK\x7d\x7d", resolvedValue := "\x7b\x7bK\x7d\x7d",
    isPlaceholder := true, resolvedFrom := "NOT_FOUND" }

/-- The records of the sample document on the empty map. -/
def sampleRecords : List HeaderRecord :=
  [sampleUnresolved,
   { callActivityId := "A", callActivityName := "Direct", headerName := "",
     rawValue := "", resolvedValue := "", isPlaceholder := false, resolvedFrom := "direct" },
   { callActivityId := "B", callActivityName := "Nested", headerName := "H2",
     rawValue := "v2", resolvedValue := "v2", isPlaceholder := false,
     resolvedFrom := "direct" }]

/-! ## Section 5: lemmas on the placeholder pattern -/

theorem braced_data (k : String) :
    (braced k).data = '{' :: '{' :: (k.data ++ ['}', '}']) := by
  cases k
  rfl

theorem eq_braced_iff (v k : String) :
    v = braced k ↔ v.data = '{' :: '{' :: (k.data ++ ['}', '}']) := by
  rw [String.ext_iff, braced_data]

theorem append_closing_ne (c : Char) (m : List Char) :
    c :: (m ++ ['}', '}']) ≠ ['}', '}'] := by
  intro h
  have hlen := congrArg List.length h
  simp at hlen

/-- The lazy group returns `k` exactly when `k` extends what was consumed by a
run of non-line-terminators that is followed by the closing braces and the end
of the input. -/
theorem lazyGroup_eq_some_iff (rest acc k : List Char) :
    lazyGroup acc rest = some k ↔
      ∃ m, k = acc ++ m ∧ rest = m ++ ['}', '}'] ∧ ∀ c ∈ m, isLineTerminator c = false := by
  induction rest generalizing acc with
  | nil =>
    simp [lazyGroup]
  | cons c cs ih =>
    unfold lazyGroup
    by_cases hend : c :: cs = ['}', '}']
    · rw [if_pos hend]
      constructor
      · intro h
        refine ⟨[], ?_, ?_, ?_⟩
        · simpa using (Option.some.inj h).symm
        · simpa using hend
        · simp
      · rintro ⟨m, hk, hrest, -⟩
        cases m with
        | nil => simp [hk]
        | cons d m =>
          rw [hend] at hrest
          exact absurd hrest.symm (append_closing_ne d m)
    · rw [if_neg hend]
      by_cases hlt : isLineTerminator c = true
      · rw [if_pos hlt]
        constructor
        · intro h
          cases h
        · rintro ⟨m, -, hrest, hall⟩
          cases m with
          | nil => exact absurd hrest hend
          | cons d m =>
            have hd : c = d := by
              have := List.head_eq_of_cons_eq hrest
              exact this
            have := hall d (by simp)
            rw [← hd, hlt] at this
            cases this
      · rw [if_neg hlt, ih]
        constructor
        · rintro ⟨m, hk, hrest, hall⟩
          refine ⟨c :: m, by simp [hk], by simp [hrest], ?_⟩
          intro d hd
          rcases List.mem_cons.mp hd with rfl | hd
          · simpa using hlt
          · exact hall d hd
        · rintro ⟨m, hk, hrest, hall⟩
          cases m with
          | nil => exact absurd hrest hend
          | cons d m =>
            have hd : c = d := List.head_eq_of_cons_eq hrest
            have htl : cs = m ++ ['}', '}'] := List.tail_eq_of_cons_eq hrest
            subst hd
            exact ⟨m, by simp [hk], htl, fun e he => hall e (by simp [he])⟩

/-- The pattern matches with capture `k` exactly on `{{k}}` for a non-empty `k`
without line terminators. -/
theorem placeholderExec_eq_some_iff (s k : List Char) :
    placeholderExec s = some k ↔
      s = '{' :: '{' :: (k ++ ['}', '}']) ∧ k ≠ [] ∧ ∀ c ∈ k, isLineTerminator c = false := by
  constructor
  · intro h
    unfold placeholderExec at h
    split at h
    · rename_i c cs
      by_cases hlt : isLineTerminator c = true
      · rw [if_pos hlt] at h
        cases h
      · rw [if_neg hlt, lazyGroup_eq_some_iff] at h
        obtain ⟨m, hk, hrest, hall⟩ := h
        subst hk
        refine ⟨by simp [hrest], by simp, ?_⟩
        intro d hd
        rcases List.mem_append.mp hd with hd | hd
        · rw [List.mem_singleton.mp hd]
          simpa using hlt
        · exact hall d hd
    · cases h
  · rintro ⟨hs, hne, hall⟩
    cases k with
    | nil => exact absurd rfl hne
    | cons c m =>
      subst hs
      have hc : isLineTerminator c = false := hall c (by simp)
      show (if isLineTerminator c = true then none else lazyGroup [c] (m ++ ['}', '}'])) = _
      rw [if_neg (by simp [hc]), lazyGroup_eq_some_iff]
      exact ⟨m, by simp, rfl, fun e he => hall e (by simp [he])⟩

theorem matchesPlaceholder_iff (v : String) :
    matchesPlaceholder v = true ↔
      ∃ k : String, k ≠ "" ∧ (∀ c ∈ k.data, isLineTerminator c = false) ∧ v = braced k := by
  unfold matchesPlaceholder
  rw [Option.isSome_iff_exists]
  constructor
  · rintro ⟨k, hk⟩
    rw [placeholderExec_eq_some_iff] at hk
    refine ⟨String.mk k, ?_, hk.2.2, ?_⟩
    · intro h
      exact hk.2.1 (congrArg String.data h)
    · rw [eq_braced_iff]
      exact hk.1
  · rintro ⟨k, hne, hall, hv⟩
    refine ⟨k.data, ?_⟩
    rw [placeholderExec_eq_some_iff]
    refine ⟨(eq_braced_iff v k).mp hv, ?_, hall⟩
    intro h
    exact hne (String.ext h)

/-- On a match of `{{k}}` the capture group is `k`. -/
theorem placeholderExec_braced (k : String) (h : matchesPlaceholder (braced k) = true) :
    placeholderExec (braced k).data = some k.data := by
  unfold matchesPlaceholder at h
  obtain ⟨key, hkey⟩ := Option.isSome_iff_exists.mp h
  have h1 := (placeholderExec_eq_some_iff _ _).mp hkey
  rw [braced_data] at h1
  have : k.data = key := by
    have := h1.1
    simpa using this
  rw [hkey, this]

/-! ## Section 6: `resolveValue` -/

/-- C1: a raw value `{{k}}` that matches `PLACEHOLDER_RE` and whose inner key
`k` is a key of the parameter map resolves to `isPlaceholder = true`,
`resolvedFrom = "parameters.prop"` and `resolvedValue = map[k]`, returned
verbatim whatever its form (the mapped value is not resolved again). -/
theorem resolveValue_key_found (paramMap : JsObj) (k value : String)
    (hmatch : matchesPlaceholder (braced k) = true)
    (hkey : paramMap.get? k = some value) :
    resolveValue (braced k) paramMap =
      { isPlaceholder := true, resolvedValue := value, resolvedFrom := "parameters.prop" } := by
  have hown : paramMap.hasOwn k = true := by
    unfold JsObj.hasOwn
    unfold JsObj.get? at hkey
    rw [hkey]
    rfl
  unfold resolveValue
  rw [placeholderExec_braced k hmatch]
  simp only []
  rw [if_pos hown, hkey]
  rfl

/-- Witness for C1 on the map `HOST = example.com` of the spec's first
scenario, and on a mapped value that itself has the placeholder form. -/
theorem resolveValue_key_found_witness :
    resolveValue "\x7b\x7bHOST\x7d\x7d" [("HOST", "example.com")] =
        { isPlaceholder := true, resolvedValue := "example.com",
          resolvedFrom := "parameters.prop" } ∧
      resolveValue "\x7b\x7bA\x7d\x7d" [("A", "\x7b\x7bB\x7d\x7d"), ("B", "x")] =
        { isPlaceholder := true, resolvedValue := "\x7b\x7bB\x7d\x7d",
          resolvedFrom := "parameters.prop" } :=
  ⟨resolveValue_key_found [("HOST", "example.com")] "HOST" "example.com" (by decide) (by decide),
   resolveValue_key_found [("A", "\x7b\x7bB\x7d\x7d"), ("B", "x")] "A" "\x7b\x7bB\x7d\x7d"
     (by decide) (by decide)⟩

/-- C2: a raw value `{{k}}` that matches `PLACEHOLDER_RE` and whose inner key
`k` is not a key of the parameter map resolves to `isPlaceholder = true`,
`resolvedFrom = "NOT_FOUND"` and `resolvedValue` the raw value itself, braces
included. -/
theorem resolveValue_key_missing (paramMap : JsObj) (k : String)
    (hmatch : matchesPlaceholder (braced k) = true)
    (hkey : paramMap.hasOwn k = false) :
    resolveValue (braced k) paramMap =
      { isPlaceholder := true, resolvedValue := braced k, resolvedFrom := "NOT_FOUND" } := by
  unfold resolveValue
  rw [placeholderExec_braced k hmatch]
  simp only []
  rw [if_neg (by simp [hkey])]

/-- Witness for C2: the spec's second scenario, `{{MISSING}}` on the empty map. -/
theorem resolveValue_key_missing_witness :
    resolveValue "\x7b\x7bMISSING\x7d\x7d" [] =
      { isPlaceholder := true, resolvedValue := "\x7b\x7bMISSING\x7d\x7d",
        resolvedFrom := "NOT_FOUND" } :=
  resolveValue_key_missing [] "MISSING" (by decide) (by decide)

/-- C3: a raw value that is not, as a whole string, of the form `{{...}}`
resolves to `isPlaceholder = false`, `resolvedFrom = "direct"` and the raw value
itself, whatever the parameter map holds. -/
theorem resolveValue_not_braced (paramMap : JsObj) (v : String)
    (hform : ¬ ∃ k : String, v = braced k) :
    resolveValue v paramMap =
      { isPlaceholder := false, resolvedValue := v, resolvedFrom := "direct" } := by
  have hnone : placeholderExec v.data = none := by
    cases hex : placeholderExec v.data with
    | none => rfl
    | some key =>
      exfalso
      apply hform
      refine ⟨String.mk key, ?_⟩
      rw [eq_braced_iff]
      exact ((placeholderExec_eq_some_iff _ _).mp hex).1
  unfold resolveValue
  rw [hnone]

theorem not_braced_of_head (v : String) (c : Char) (cs : List Char) (hv : v.data = c :: cs)
    (hc : c ≠ '{') : ¬ ∃ k : String, v = braced k := by
  rintro ⟨k, hk⟩
  rw [eq_braced_iff, hv] at hk
  exact hc (List.head_eq_of_cons_eq hk)

theorem not_braced_of_last (v : String) (c : Char) (cs : List Char) (hv : v.data = cs ++ [c])
    (hc : c ≠ '}') : ¬ ∃ k : String, v = braced k := by
  rintro ⟨k, hk⟩
  rw [eq_braced_iff, hv] at hk
  have h2 : cs ++ [c] = ('{' :: '{' :: (k.data ++ ['}'])) ++ ['}'] := by
    rw [hk]
    simp
  exact hc (List.append_inj_right' h2 rfl |> List.singleton_inj.mp)

/-- Witness for C3: text before the opening braces, text after the closing
braces, and the empty string, on a map that holds the embedded key. -/
theorem resolveValue_not_braced_witness :
    resolveValue "x\x7b\x7bHOST\x7d\x7d" [("HOST", "example.com")] =
        { isPlaceholder := false, resolvedValue := "x\x7b\x7bHOST\x7d\x7d",
          resolvedFrom := "direct" } ∧
      resolveValue "\x7b\x7bHOST\x7d\x7d/path" [("HOST", "example.com")] =
        { isPlaceholder := false, resolvedValue := "\x7b\x7bHOST\x7d\x7d/path",
          resolvedFrom := "direct" } ∧
      resolveValue "" [("HOST", "example.com")] =
        { isPlaceholder := false, resolvedValue := "", resolvedFrom := "direct" } :=
  ⟨resolveValue_not_braced _ _
      (not_braced_of_head _ 'x' "\x7b\x7bHOST\x7d\x7d".data rfl (by decide)),
   resolveValue_not_braced _ _
      (not_braced_of_last _ 'h' "\x7b\x7bHOST\x7d\x7d/pat".data rfl (by decide)),
   resolveValue_not_braced _ _ (by
      rintro ⟨k, hk⟩
      rw [eq_braced_iff] at hk
      cases hk)⟩

theorem resolveValue_isPlaceholder (v : String) (paramMap : JsObj) :
    (resolveValue v paramMap).isPlaceholder = matchesPlaceholder v := by
  unfold resolveValue matchesPlaceholder
  cases placeholderExec v.data with
  | none => rfl
  | some key =>
    simp only []
    split <;> rfl

/-- C4, as stated, fails: `{{a⏎b}}` has the non-empty inner text `a⏎b` between
the braces, but the `.` of the pattern does not match the line feed, so the
value is not a placeholder. -/
theorem isPlaceholder_iff_braced_counterexample :
    ¬ ∀ (v : String) (paramMap : JsObj),
        (resolveValue v paramMap).isPlaceholder = true ↔ ∃ k : String, k ≠ "" ∧ v = braced k := by
  intro h
  have h1 := (h "\x7b\x7ba\nb\x7d\x7d" []).mpr ⟨"a\nb", by decide, by decide⟩
  revert h1
  decide

/-- C4, amended: `resolveValue(v, map).isPlaceholder` is true if and only if
`v` is `{{k}}` for a non-empty `k` that holds no line terminator (line feed,
carriage return, U+2028, U+2029). -/
theorem isPlaceholder_iff_braced_no_line_terminator (v : String) (paramMap : JsObj) :
    (resolveValue v paramMap).isPlaceholder = true ↔
      ∃ k : String, k ≠ "" ∧ (∀ c ∈ k.data, isLineTerminator c = false) ∧ v = braced k := by
  rw [resolveValue_isPlaceholder, matchesPlaceholder_iff]

/-! ## Section 7: `parseHeaderTable` -/

theorem foldl_append_eq_flatMap {α β : Type} (step : List β → α → List β) (g : α → List β)
    (hstep : ∀ acc x, step acc x = acc ++ g x) (xs : List α) (acc : List β) :
    xs.foldl step acc = acc ++ xs.flatMap g := by
  induction xs generalizing acc with
  | nil => simp
  | cons x xs ih => simp [List.foldl_cons, ih, hstep, List.flatMap_cons]

theorem lookup_cons_ite (k a b : String) (es : JsObj) :
    List.lookup k ((a, b) :: es) = if k = a then some b else List.lookup k es := by
  rw [List.lookup_cons]
  by_cases h : k = a
  · simp [h]
  · have hb : (k == a) = false := by simpa using h
    rw [hb, if_neg h]

theorem lookup_map_set_of_ne (o : JsObj) (k v k' : String) (hne : k' ≠ k) :
    (o.map (fun kv => if kv.1 = k then (k, v) else kv)).lookup k' = o.lookup k' := by
  induction o with
  | nil => rfl
  | cons e o ih =>
    obtain ⟨a, b⟩ := e
    by_cases ha : a = k
    · subst ha
      simp [lookup_cons_ite, hne, ih]
    · by_cases hk : k' = a
      · subst hk
        simp [lookup_cons_ite, ha]
      · simp [lookup_cons_ite, ha, hk, ih]

theorem lookup_map_set_self (o : JsObj) (k v : String) (hown : (o.lookup k).isSome = true) :
    (o.map (fun kv => if kv.1 = k then (k, v) else kv)).lookup k = some v := by
  induction o with
  | nil => simp at hown
  | cons e o ih =>
    obtain ⟨a, b⟩ := e
    by_cases ha : a = k
    · subst ha
      simp [lookup_cons_ite]
    · have hka : ¬ k = a := fun h => ha h.symm
      rw [lookup_cons_ite, if_neg hka] at hown
      simp [lookup_cons_ite, ha, hka, ih hown]

theorem lookup_append_single (o : JsObj) (k v k' : String) (hnone : o.lookup k = none) :
    (o ++ [(k, v)]).lookup k' = if k' = k then some v else o.lookup k' := by
  induction o with
  | nil =>
    by_cases h : k' = k <;> simp [lookup_cons_ite, h]
  | cons e o ih =>
    obtain ⟨a, b⟩ := e
    by_cases hka : k = a
    · subst hka
      simp [lookup_cons_ite] at hnone
    · rw [lookup_cons_ite, if_neg hka] at hnone
      by_cases hk : k' = a
      · subst hk
        have : ¬ k' = k := fun h => hka h.symm
        simp [lookup_cons_ite, this]
      · simp [lookup_cons_ite, hk, ih hnone]

/-- Reading a property after an assignment `o[k] = v`. -/
theorem get?_set (o : JsObj) (k v k' : String) (hk : k ≠ "__proto__") :
    (o.set k v).get? k' = if k' = k then some v else o.get? k' := by
  unfold JsObj.set JsObj.get?
  rw [if_neg hk]
  by_cases hown : o.hasOwn k = true
  · rw [if_pos hown]
    by_cases h : k' = k
    · subst h
      rw [if_pos rfl]
      exact lookup_map_set_self o k' v hown
    · rw [if_neg h]
      exact lookup_map_set_of_ne o k v k' h
  · rw [if_neg hown]
    apply lookup_append_single
    unfold JsObj.hasOwn at hown
    cases hl : o.lookup k with
    | none => rfl
    | some x => simp [hl] at hown

theorem get?_set_proto (o : JsObj) (v k' : String) :
    (o.set "__proto__" v).get? k' = o.get? k' := by
  unfold JsObj.set
  rw [if_pos rfl]

theorem lastCellText_append_single (cells : List Cell) (c : Cell) (id : String) :
    lastCellText (cells ++ [c]) id =
      if c.id = some id then some (c.text.getD "") else lastCellText cells id := by
  unfold lastCellText
  by_cases h : c.id = some id
  · simp [List.filter_append, h]
  · simp [List.filter_append, h]

/-- The cell map read at an identifier other than `""` and `__proto__` is the
text of the last cell with that identifier. -/
theorem buildCellMap_get? (cells : List Cell) (id : String) (h1 : id ≠ "")
    (h2 : id ≠ "__proto__") :
    (buildCellMap cells).get? id = lastCellText cells id := by
  unfold buildCellMap
  induction cells using List.reverseRecOn with
  | nil => rfl
  | append_singleton cells c ih =>
    rw [List.foldl_append, List.foldl_cons, List.foldl_nil, lastCellText_append_single]
    by_cases hp : c.id.getD "" = "__proto__"
    · rw [hp, get?_set_proto, ih]
      have : ¬ c.id = some id := by
        intro hc
        rw [hc] at hp
        exact h2 hp
      rw [if_neg this]
    · rw [get?_set _ _ _ _ hp, ih]
      by_cases hc : c.id = some id
      · rw [if_pos hc, if_pos (by simp [hc])]
      · rw [if_neg hc, if_neg]
        intro hid
        cases hcid : c.id with
        | none =>
          rw [hcid] at hid
          exact h1 hid
        | some x =>
          rw [hcid] at hid hc
          exact hc (congrArg some hid.symm)

theorem rowStep_eq (callActivityId callActivityName : String) (paramMap : JsObj)
    (results : List HeaderRecord) (row : Row) :
    rowStep callActivityId callActivityName paramMap results row =
      results ++ (rowRecord? callActivityId callActivityName paramMap row).toList := by
  unfold rowStep rowRecord?
  simp only []
  rw [buildCellMap_get? _ "Name" (by decide) (by decide),
    buildCellMap_get? _ "Value" (by decide) (by decide)]
  cases lastCellText (row.cell.getD []) "Name" with
  | none => simp
  | some headerName => simp

theorem flatMap_toList_eq_filterMap {α β : Type} (f : α → Option β) (xs : List α) :
    xs.flatMap (fun x => (f x).toList) = xs.filterMap f := by
  induction xs with
  | nil => rfl
  | cons x xs ih =>
    cases h : f x <;> simp [List.flatMap_cons, List.filterMap_cons, h, ih]

/-- C5: when the header table is non-blank and its wrapped, decoded text parses,
`parseHeaderTable` returns, in row order, one record for every row that has a
cell with id `Name` and none for the other rows; the record holds the text of
the `Name` cell, the text of the `Value` cell or `""`, the fields of
`resolveValue` on that raw value, and the call-activity id and name passed in.
The second part says that a row gives a record exactly when it has a `Name`
cell. -/
theorem parseHeaderTable_rows (parseXml : XmlParser) (rawXmlValue caId caName : String)
    (paramMap : JsObj) (parsed : ParsedTable)
    (hblank : jsTrim rawXmlValue ≠ "")
    (hparse : parseXml (wrapTable rawXmlValue) = .ok parsed) :
    parseHeaderTable parseXml rawXmlValue caId caName paramMap =
        (parsed.row.getD []).filterMap (rowRecord? caId caName paramMap) ∧
      ∀ row : Row, (rowRecord? caId caName paramMap row).isSome = true ↔
        ∃ c ∈ row.cell.getD [], c.id = some "Name" := by
  constructor
  · unfold parseHeaderTable
    simp only []
    rw [if_neg hblank, hparse]
    simp only []
    rw [foldl_append_eq_flatMap _ _ (rowStep_eq caId caName paramMap), List.nil_append,
      flatMap_toList_eq_filterMap]
  · intro row
    unfold rowRecord? lastCellText
    cases hl : (List.filter (fun c => decide (c.id = some "Name")) (row.cell.getD [])).getLast? with
    | none =>
      rw [List.getLast?_eq_none_iff, List.filter_eq_nil_iff] at hl
      simp only [Option.map_none', Option.isSome_none, Bool.false_eq_true, false_iff]
      rintro ⟨c, hc, hid⟩
      exact hl c hc (by simp [hid])
    | some c =>
      simp only [Option.map_some', Option.isSome_some, true_iff]
      have hmem := List.mem_of_getLast?_eq_some hl
      rw [List.mem_filter] at hmem
      exact ⟨c, hmem.1, by simpa using hmem.2⟩

/-- Witness for C5: the sample table gives a record for its first row (with the
placeholder resolved) and for its third row (empty name, no value), and none
for the second row, which has no `Name` cell. -/
theorem parseHeaderTable_rows_witness :
    parseHeaderTable sampleParser " &lt;ok/&gt; " "CA1" "Set Headers" [("K", "v")] =
      [{ callActivityId := "CA1", callActivityName := "Set Headers", headerName := "H1",
         rawValue := "\x7b\x7bK\x7d\x7d", resolvedValue := "v", isPlaceholder := true,
         resolvedFrom := "parameters.prop" },
       { callActivityId := "CA1", callActivityName := "Set Headers", headerName := "",
         rawValue := "", resolvedValue := "", isPlaceholder := false,
         resolvedFrom := "direct" }] :=
  (parseHeaderTable_rows sampleParser " &lt;ok/&gt; " "CA1" "Set Headers" [("K", "v")]
    sampleTable (by decide) rfl).1.trans (by decide)

/-! ## Section 8: `processCallActivities` -/

theorem propStep_eq (parseXml : XmlParser) (paramMap : JsObj) (caId caName : String)
    (acc : List HeaderRecord) (prop : Property) :
    propStep parseXml paramMap caId caName acc prop =
      acc ++ propStep parseXml paramMap caId caName [] prop := by
  unfold propStep
  simp only []
  split
  · simp
  · split <;> simp

theorem caStep_eq (parseXml : XmlParser) (paramMap : JsObj) (acc : List HeaderRecord)
    (ca : CallActivity) :
    caStep parseXml paramMap acc ca =
      acc ++ (caProperties ca).flatMap
        (propStep parseXml paramMap (ca.id.getD "Unknown_ID") (ca.name.getD "Unnamed") []) := by
  unfold caStep
  simp only []
  exact foldl_append_eq_flatMap _ _ (fun a x => propStep_eq parseXml paramMap _ _ a x) _ _

theorem processCallActivities_eq_flatMap (parseXml : XmlParser) (cas : List CallActivity)
    (paramMap : JsObj) :
    processCallActivities parseXml cas paramMap =
      cas.flatMap (fun ca => (caProperties ca).flatMap
        (propStep parseXml paramMap (ca.id.getD "Unknown_ID") (ca.name.getD "Unnamed") [])) := by
  unfold processCallActivities
  rw [foldl_append_eq_flatMap _ _ (fun a x => caStep_eq parseXml paramMap a x), List.nil_append]

theorem processCallActivities_append (parseXml : XmlParser) (as bs : List CallActivity)
    (paramMap : JsObj) :
    processCallActivities parseXml (as ++ bs) paramMap =
      processCallActivities parseXml as paramMap ++ processCallActivities parseXml bs paramMap := by
  simp only [processCallActivities_eq_flatMap, List.flatMap_append]

theorem processCallActivities_single (parseXml : XmlParser) (ca : CallActivity)
    (paramMap : JsObj) :
    processCallActivities parseXml [ca] paramMap =
      (caProperties ca).flatMap
        (propStep parseXml paramMap (ca.id.getD "Unknown_ID") (ca.name.getD "Unnamed") []) := by
  simp [processCallActivities_eq_flatMap]

theorem propStep_other_key (parseXml : XmlParser) (paramMap : JsObj) (caId caName : String)
    (prop : Property) (hkey : isHeaderTable prop = false) :
    propStep parseXml paramMap caId caName [] prop = [] := by
  unfold isHeaderTable at hkey
  unfold propStep
  simp only []
  rw [if_pos (by simpa using hkey)]

theorem propStep_blank (parseXml : XmlParser) (paramMap : JsObj) (caId caName : String)
    (prop : Property) (hkey : isHeaderTable prop = true) (hblank : jsTrim (rawText prop) = "") :
    propStep parseXml paramMap caId caName [] prop = [sentinelRecord caId caName] := by
  unfold isHeaderTable at hkey
  unfold rawText at hblank
  have hrows : parseHeaderTable parseXml (rawValueOf (prop.value.getD [])) caId caName paramMap
      = [] := by
    unfold parseHeaderTable
    simp only []
    rw [if_pos hblank]
  unfold propStep
  simp only []
  rw [if_neg (by simpa using hkey), hrows, if_pos ⟨rfl, hblank⟩]
  rfl

theorem propStep_rejected (parseXml : XmlParser) (paramMap : JsObj) (caId caName : String)
    (prop : Property) (msg : String) (hblank : jsTrim (rawText prop) ≠ "")
    (hreject : parseXml (wrapTable (rawText prop)) = .error msg) :
    propStep parseXml paramMap caId caName [] prop = [] := by
  unfold rawText at hblank hreject
  have hrows : parseHeaderTable parseXml (rawValueOf (prop.value.getD [])) caId caName paramMap
      = [] := by
    unfold parseHeaderTable
    simp only []
    rw [if_neg hblank, hreject]
  unfold propStep
  simp only []
  split
  · rfl
  · rw [hrows, if_neg (fun h => hblank h.2)]
    rfl

theorem flatMap_eq_nil_of_forall {α β : Type} (f : α → List β) (xs : List α)
    (h : ∀ x ∈ xs, f x = []) : xs.flatMap f = [] := by
  induction xs with
  | nil => rfl
  | cons x xs ih =>
    rw [List.flatMap_cons, h x (by simp), ih (fun y hy => h y (by simp [hy]))]
    rfl

/-- C6, as stated, fails: a call-activity with two `headerTable` properties,
both with blank raw text, has a `headerTable` property whose raw text is blank
and yields two sentinel records, not exactly one. -/
theorem blank_headerTable_counterexample :
    ¬ ∀ (parseXml : XmlParser) (paramMap : JsObj) (ca : CallActivity),
        (∃ prop ∈ caProperties ca, isHeaderTable prop = true ∧ jsTrim (rawText prop) = "") →
        processCallActivities parseXml [ca] paramMap =
          [sentinelRecord (ca.id.getD "Unknown_ID") (ca.name.getD "Unnamed")] := by
  intro h
  have h1 := h sampleParser []
    (mkCallActivity "CA1" "Set Headers" [mkProperty "headerTable" "", mkProperty "headerTable" " "])
    ⟨mkProperty "headerTable" "", by decide, by decide, by decide⟩
  revert h1
  decide

/-- C6, amended: a call-activity exactly one of whose properties has the key
`headerTable`, the raw text of that property being blank, contributes exactly
one record to the output of `processCallActivities`: the sentinel with its id
and name. -/
theorem blank_headerTable_sentinel (parseXml : XmlParser) (paramMap : JsObj)
    (before after : List CallActivity) (ca : CallActivity) (pre post : List Property)
    (prop : Property)
    (hprops : caProperties ca = pre ++ prop :: post)
    (hpre : ∀ p ∈ pre, isHeaderTable p = false)
    (hpost : ∀ p ∈ post, isHeaderTable p = false)
    (hkey : isHeaderTable prop = true)
    (hblank : jsTrim (rawText prop) = "") :
    processCallActivities parseXml (before ++ ca :: after) paramMap =
      processCallActivities parseXml before paramMap ++
        { callActivityId := ca.id.getD "Unknown_ID"
          callActivityName := ca.name.getD "Unnamed"
          headerName := "(empty headerTable)"
          rawValue := ""
          resolvedValue := ""
          isPlaceholder := false
          resolvedFrom := "direct" } ::
        processCallActivities parseXml after paramMap := by
  have hca : processCallActivities parseXml [ca] paramMap =
      [sentinelRecord (ca.id.getD "Unknown_ID") (ca.name.getD "Unnamed")] := by
    rw [processCallActivities_single, hprops, List.flatMap_append, List.flatMap_cons,
      flatMap_eq_nil_of_forall _ pre (fun p hp => propStep_other_key _ _ _ _ p (hpre p hp)),
      flatMap_eq_nil_of_forall _ post (fun p hp => propStep_other_key _ _ _ _ p (hpost p hp)),
      propStep_blank _ _ _ _ prop hkey hblank]
    rfl
  have hsplit : before ++ ca :: after = before ++ ([ca] ++ after) := rfl
  rw [hsplit, processCallActivities_append, processCallActivities_append, hca]
  rfl

/-- Witness for C6: a call-activity with a property of another key and one
`headerTable` property of whitespace-only text, between two other
call-activities. -/
theorem blank_headerTable_sentinel_witness :
    processCallActivities sampleParser
        ([mkCallActivity "CA0" "First" [mkProperty "headerTable" "&lt;one/&gt;"]] ++
          mkCallActivity "CA1" "Set Headers"
            [mkProperty "componentVersion" "1.0", mkProperty "headerTable" " \n "] ::
          [mkCallActivity "CA2" "Last" []]) [] =
      processCallActivities sampleParser
          [mkCallActivity "CA0" "First" [mkProperty "headerTable" "&lt;one/&gt;"]] [] ++
        { callActivityId := "CA1", callActivityName := "Set Headers",
          headerName := "(empty headerTable)", rawValue := "", resolvedValue := "",
          isPlaceholder := false, resolvedFrom := "direct" } ::
        processCallActivities sampleParser [mkCallActivity "CA2" "Last" []] [] :=
  blank_headerTable_sentinel sampleParser []
    [mkCallActivity "CA0" "First" [mkProperty "headerTable" "&lt;one/&gt;"]]
    [mkCallActivity "CA2" "Last" []]
    (mkCallActivity "CA1" "Set Headers"
      [mkProperty "componentVersion" "1.0", mkProperty "headerTable" " \n "])
    [mkProperty "componentVersion" "1.0"] [] (mkProperty "headerTable" " \n ")
    rfl (by decide) (by decide) (by decide) (by decide)

/-- C7: a `headerTable` property whose raw text is non-blank and whose decoded,
wrapped text the parser rejects appends nothing to the results (no row and no
sentinel), and the output of `processCallActivities` is the output for the same
call-activities with that property removed: every other record is still
returned. -/
theorem rejected_headerTable_contributes_nothing (parseXml : XmlParser) (paramMap : JsObj)
    (before after : List CallActivity) (ca ca' : CallActivity) (pre post : List Property)
    (prop : Property) (msg : String)
    (hprops : caProperties ca = pre ++ prop :: post)
    (hprops' : caProperties ca' = pre ++ post)
    (hid : ca'.id = ca.id) (hname : ca'.name = ca.name)
    (hblank : jsTrim (rawText prop) ≠ "")
    (hreject : parseXml (wrapTable (rawText prop)) = .error msg) :
    (∀ acc : List HeaderRecord,
        propStep parseXml paramMap (ca.id.getD "Unknown_ID") (ca.name.getD "Unnamed") acc prop
          = acc) ∧
      processCallActivities parseXml (before ++ ca :: after) paramMap =
        processCallActivities parseXml (before ++ ca' :: after) paramMap := by
  constructor
  · intro acc
    rw [propStep_eq, propStep_rejected parseXml paramMap _ _ prop msg hblank hreject,
      List.append_nil]
  · have hca : processCallActivities parseXml [ca] paramMap =
        processCallActivities parseXml [ca'] paramMap := by
      rw [processCallActivities_single, processCallActivities_single, hprops, hprops', hid,
        hname, List.flatMap_append, List.flatMap_append, List.flatMap_cons,
        propStep_rejected parseXml paramMap _ _ prop msg hblank hreject, List.nil_append]
    have hsplit : ∀ c : CallActivity, before ++ c :: after = before ++ ([c] ++ after) :=
      fun _ => rfl
    rw [hsplit ca, hsplit ca', processCallActivities_append, processCallActivities_append,
      processCallActivities_append, processCallActivities_append, hca]

/-- Witness for C7: the text `<row>` is rejected by the sample parser; the
call-activity's other `headerTable` property and the other call-activity keep
their records. -/
theorem rejected_headerTable_contributes_nothing_witness :
    processCallActivities sampleParser
        ([mkCallActivity "CA0" "First" [mkProperty "headerTable" ""]] ++
          mkCallActivity "CA1" "Set Headers"
            [mkProperty "headerTable" "&lt;row&gt;", mkProperty "headerTable" "&lt;one/&gt;"] ::
          []) [] =
      [sentinelRecord "CA0" "First",
       { callActivityId := "CA1", callActivityName := "Set Headers", headerName := "H2",
         rawValue := "v2", resolvedValue := "v2", isPlaceholder := false,
         resolvedFrom := "direct" }] :=
  (rejected_headerTable_contributes_nothing sampleParser []
    [mkCallActivity "CA0" "First" [mkProperty "headerTable" ""]] []
    (mkCallActivity "CA1" "Set Headers"
      [mkProperty "headerTable" "&lt;row&gt;", mkProperty "headerTable" "&lt;one/&gt;"])
    (mkCallActivity "CA1" "Set Headers" [mkProperty "headerTable" "&lt;one/&gt;"])
    [] [mkProperty "headerTable" "&lt;one/&gt;"] (mkProperty "headerTable" "&lt;row&gt;")
    "Unclosed root tag" rfl rfl rfl rfl (by decide) rfl).2.trans (by decide)

/-! ## Section 9: `extractHeaders` -/

theorem processCallActivities_eq_flatMap_single (parseXml : XmlParser)
    (cas : List CallActivity) (paramMap : JsObj) :
    processCallActivities parseXml cas paramMap =
      cas.flatMap (fun ca => processCallActivities parseXml [ca] paramMap) := by
  rw [processCallActivities_eq_flatMap]
  congr 1
  funext ca
  rw [processCallActivities_single]

/-- C8: for a document with at least one process node, `extractHeaders` returns
the concatenation, over the process nodes in order, of the records of the
process's direct call-activities in order followed by the records of the
call-activities of each of its sub-processes in order; every call-activity
occurs once in that enumeration. -/
theorem extractHeaders_navigator_order (parseXml : XmlParser) (iflwParsed : IflwParsed)
    (paramMap : JsObj) (hproc : processesOf iflwParsed ≠ []) :
    extractHeaders parseXml iflwParsed paramMap =
      .ok ((processesOf iflwParsed).flatMap (fun process =>
        (process.callActivity.getD []).flatMap
            (fun ca => processCallActivities parseXml [ca] paramMap) ++
          (process.subProcess.getD []).flatMap (fun sp =>
            (sp.callActivity.getD []).flatMap
              (fun ca => processCallActivities parseXml [ca] paramMap)))) := by
  unfold extractHeaders
  simp only []
  rw [if_neg (by simpa using hproc)]
  rw [foldl_append_eq_flatMap _
    (fun process => processCallActivities parseXml (allCAs process) paramMap)
    (fun _ _ => rfl), List.nil_append]
  congr 2
  funext process
  rw [processCallActivities_eq_flatMap_single]
  unfold allCAs
  simp only []
  rw [List.flatMap_append, List.flatMap_assoc]

/-- Witness for C8: in the sample document the records of the direct
call-activity `A` come before those of the nested call-activity `B`. -/
theorem extractHeaders_navigator_order_witness :
    extractHeaders sampleParser sampleDocument [] =
      .ok [{ callActivityId := "A", callActivityName := "Direct", headerName := "H1",
             rawValue := "\x7b\x7bK\x7d\x7d", resolvedValue := "\x7b\x7bK\x7d\x7d",
             isPlaceholder := true, resolvedFrom := "NOT_FOUND" },
           { callActivityId := "A", callActivityName := "Direct", headerName := "",
             rawValue := "", resolvedValue := "", isPlaceholder := false,
             resolvedFrom := "direct" },
           { callActivityId := "B", callActivityName := "Nested", headerName := "H2",
             rawValue := "v2", resolvedValue := "v2", isPlaceholder := false,
             resolvedFrom := "direct" }] :=
  (extractHeaders_navigator_order sampleParser sampleDocument [] (by decide)).trans
    (congrArg Except.ok (by decide))

/-- C9: `extractHeaders` fails if and only if the document has no process node,
which is the case when it has no definitions node; with at least one process
node it returns a record list, whatever the parser does on the header tables
and whatever the call-activities and the parameter map hold. -/
theorem extractHeaders_fails_iff_no_process (parseXml : XmlParser) (iflwParsed : IflwParsed)
    (paramMap : JsObj) :
    ((∃ msg, extractHeaders parseXml iflwParsed paramMap = .error msg) ↔
        processesOf iflwParsed = []) ∧
      ((∃ records, extractHeaders parseXml iflwParsed paramMap = .ok records) ↔
        processesOf iflwParsed ≠ []) ∧
      (iflwParsed.definitions = none → processesOf iflwParsed = []) := by
  refine ⟨?_, ?_, ?_⟩
  · unfold extractHeaders
    simp only []
    by_cases h : processesOf iflwParsed = []
    · simp [h]
    · rw [if_neg (by simpa using h)]
      simp [h]
  · unfold extractHeaders
    simp only []
    by_cases h : processesOf iflwParsed = []
    · simp [h]
    · rw [if_neg (by simpa using h)]
      simp [h]
  · intro hdef
    unfold processesOf
    rw [hdef]
    rfl

/-- Witness for C9: a document whose only call-activity has a header table the
parser rejects is extracted without failure, and a document without process
nodes is not. -/
theorem extractHeaders_fails_iff_no_process_witness :
    (∃ records, extractHeaders sampleParser rejectedDocument [] = .ok records) ∧
      (∃ msg, extractHeaders sampleParser emptyDocument [] = .error msg) :=
  ⟨(extractHeaders_fails_iff_no_process sampleParser rejectedDocument []).2.1.mpr (by decide),
   (extractHeaders_fails_iff_no_process sampleParser emptyDocument []).1.mpr (by decide)⟩

/-! ## Section 10: `decodeHtmlEntities` -/

/-- C10 fails on the code: the standard escaping of the six characters `&quot;`
is `&amp;quot;`, and `decodeHtmlEntities` turns it into a double quote, because
`&amp;` is replaced before `&quot;` and the result of the earlier replacement is
scanned again by the later one. -/
theorem decodeHtmlEntities_decodes_twice :
    escapeXml "&quot;" = "&amp;quot;" ∧
      decodeHtmlEntities (escapeXml "&quot;") = "\"" ∧
      decodeHtmlEntities (escapeXml "&quot;") ≠ "&quot;" := by
  decide

/-! ## Section 11: the sentinel, the frame and independence of call-activities -/

theorem propStep_headerTable (parseXml : XmlParser) (paramMap : JsObj) (caId caName : String)
    (prop : Property) (hkey : isHeaderTable prop = true) :
    propStep parseXml paramMap caId caName [] prop =
      if jsTrim (rawText prop) = "" then [sentinelRecord caId caName]
      else parseHeaderTable parseXml (rawText prop) caId caName paramMap := by
  by_cases hblank : jsTrim (rawText prop) = ""
  · rw [if_pos hblank, propStep_blank parseXml paramMap caId caName prop hkey hblank]
  · rw [if_neg hblank]
    unfold isHeaderTable at hkey
    unfold rawText at hblank
    unfold propStep rawText
    simp only []
    rw [if_neg (by simpa using hkey), if_neg (fun h => hblank h.2)]
    rfl

theorem flatMap_filter_of_nil {α β : Type} (f : α → List β) (p : α → Bool) (xs : List α)
    (h : ∀ x ∈ xs, p x = false → f x = []) : (xs.filter p).flatMap f = xs.flatMap f := by
  induction xs with
  | nil => rfl
  | cons x xs ih =>
    have ih' := ih (fun y hy => h y (by simp [hy]))
    by_cases hp : p x = true
    · rw [List.filter_cons_of_pos hp, List.flatMap_cons, List.flatMap_cons, ih']
    · have hp' : p x = false := by simpa using hp
      rw [List.filter_cons_of_neg hp, List.flatMap_cons, h x (by simp) hp', ih']
      rfl

theorem length_flatMap_eq_sum {α β : Type} (f : α → List β) (xs : List α) :
    (xs.flatMap f).length = (xs.map (fun x => (f x).length)).sum := by
  induction xs with
  | nil => rfl
  | cons x xs ih => simp [List.flatMap_cons, ih]

theorem caRecords_eq_headerTables (parseXml : XmlParser) (paramMap : JsObj) (ca : CallActivity) :
    processCallActivities parseXml [ca] paramMap =
      ((caProperties ca).filter isHeaderTable).flatMap (fun prop =>
        if jsTrim (rawText prop) = "" then
          [sentinelRecord (ca.id.getD "Unknown_ID") (ca.name.getD "Unnamed")]
        else parseHeaderTable parseXml (rawText prop) (ca.id.getD "Unknown_ID")
          (ca.name.getD "Unnamed") paramMap) := by
  rw [processCallActivities_single,
    ← flatMap_filter_of_nil _ isHeaderTable (caProperties ca)
      (fun p _ hp => propStep_other_key parseXml paramMap _ _ p hp)]
  apply List.flatMap_congr
  intro prop hprop
  exact propStep_headerTable parseXml paramMap _ _ prop (List.mem_filter.mp hprop).2

/-- C11: the records of a call-activity are the concatenation, over its
`headerTable` properties in order, of the sentinel alone when the property's raw
text is blank and of the rows `parseHeaderTable` returns (and no sentinel, also
when there are no rows) when it is not; so the number of records is the number
of rows of the non-blank properties plus one sentinel for every blank
`headerTable` property. -/
theorem sentinel_iff_blank_headerTable (parseXml : XmlParser) (paramMap : JsObj)
    (ca : CallActivity) :
    processCallActivities parseXml [ca] paramMap =
        ((caProperties ca).filter isHeaderTable).flatMap (fun prop =>
          if jsTrim (rawText prop) = "" then
            [sentinelRecord (ca.id.getD "Unknown_ID") (ca.name.getD "Unnamed")]
          else parseHeaderTable parseXml (rawText prop) (ca.id.getD "Unknown_ID")
            (ca.name.getD "Unnamed") paramMap) ∧
      (processCallActivities parseXml [ca] paramMap).length =
        ((((caProperties ca).filter isHeaderTable).filter
            (fun prop => decide (jsTrim (rawText prop) ≠ ""))).map
          (fun prop => (parseHeaderTable parseXml (rawText prop) (ca.id.getD "Unknown_ID")
            (ca.name.getD "Unnamed") paramMap).length)).sum +
        ((caProperties ca).filter isHeaderTable).countP
          (fun prop => decide (jsTrim (rawText prop) = "")) := by
  refine ⟨caRecords_eq_headerTables parseXml paramMap ca, ?_⟩
  rw [caRecords_eq_headerTables, length_flatMap_eq_sum]
  induction (caProperties ca).filter isHeaderTable with
  | nil => rfl
  | cons prop props ih =>
    rw [List.map_cons, List.sum_cons, ih, List.filter_cons, List.countP_cons]
    by_cases hblank : jsTrim (rawText prop) = ""
    · simp [hblank]
      omega
    · simp [hblank]
      omega

theorem caProperties_keepHeaderTable (ca : CallActivity) :
    caProperties (keepHeaderTable ca) = (caProperties ca).filter isHeaderTable := by
  obtain ⟨id, name, ext⟩ := ca
  cases ext with
  | none => rfl
  | some es =>
    cases es with
    | nil => rfl
    | cons e es =>
      obtain ⟨props⟩ := e
      cases props with
      | none => rfl
      | some ps => rfl

/-- C12: `processCallActivities` returns the same records after every property
whose key is not exactly `headerTable` has been removed from every
call-activity (the removal keeps exactly the `headerTable` properties), and a
call-activity without a `headerTable` property contributes no record. -/
theorem other_properties_ignored (parseXml : XmlParser) (paramMap : JsObj)
    (cas : List CallActivity) :
    processCallActivities parseXml (cas.map keepHeaderTable) paramMap =
        processCallActivities parseXml cas paramMap ∧
      (∀ ca : CallActivity,
        caProperties (keepHeaderTable ca) = (caProperties ca).filter isHeaderTable) ∧
      (∀ ca : CallActivity, (∀ p ∈ caProperties ca, isHeaderTable p = false) →
        processCallActivities parseXml [ca] paramMap = []) := by
  refine ⟨?_, caProperties_keepHeaderTable, ?_⟩
  · rw [processCallActivities_eq_flatMap, processCallActivities_eq_flatMap, List.flatMap_map]
    apply List.flatMap_congr
    intro ca _
    have hid : (keepHeaderTable ca).id = ca.id := rfl
    have hname : (keepHeaderTable ca).name = ca.name := rfl
    rw [caProperties_keepHeaderTable, hid, hname]
    exact flatMap_filter_of_nil _ isHeaderTable (caProperties ca)
      (fun p _ hp => propStep_other_key parseXml paramMap _ _ p hp)
  · intro ca hnone
    rw [processCallActivities_single]
    exact flatMap_eq_nil_of_forall _ _
      (fun p hp => propStep_other_key parseXml paramMap _ _ p (hnone p hp))

/-- Witness for C12: a property of another key next to a `headerTable`
property changes nothing, and a call-activity that has only properties of other
keys contributes no record. -/
theorem other_properties_ignored_witness :
    processCallActivities sampleParser
        ([mkCallActivity "CA1" "Set Headers"
            [mkProperty "componentVersion" "1.0", mkProperty "headerTable" ""],
          mkCallActivity "CA2" "Other" [mkProperty "activityType" "Enricher"]].map
          keepHeaderTable) [] =
        processCallActivities sampleParser
          [mkCallActivity "CA1" "Set Headers"
            [mkProperty "componentVersion" "1.0", mkProperty "headerTable" ""],
           mkCallActivity "CA2" "Other" [mkProperty "activityType" "Enricher"]] [] ∧
      processCallActivities sampleParser
        [mkCallActivity "CA2" "Other" [mkProperty "activityType" "Enricher"]] [] = [] :=
  ⟨(other_properties_ignored sampleParser [] _).1,
   (other_properties_ignored sampleParser [] []).2.2
     (mkCallActivity "CA2" "Other" [mkProperty "activityType" "Enricher"]) (by decide)⟩

/-- C16: the output for `A ++ B` is the output for `A` followed by the output
for `B`, and the output for any list is the concatenation, in input order, of
the records computed for each call-activity on its own. -/
theorem processCallActivities_independent (parseXml : XmlParser) (paramMap : JsObj)
    (A B : List CallActivity) :
    processCallActivities parseXml (A ++ B) paramMap =
        processCallActivities parseXml A paramMap ++ processCallActivities parseXml B paramMap ∧
      ∀ cas : List CallActivity,
        processCallActivities parseXml cas paramMap =
          (cas.map (fun ca => processCallActivities parseXml [ca] paramMap)).flatten := by
  refine ⟨processCallActivities_append parseXml A B paramMap, ?_⟩
  intro cas
  rw [processCallActivities_eq_flatMap_single, List.flatMap_def]

/-- C19: when the raw value matches the pattern, the capture group is the raw
value with its first two and last two characters removed, and `resolveValue`
looks up exactly that key, untrimmed: it returns the mapped value when the key
is an own key of the map and the raw value with `NOT_FOUND` when it is not. -/
theorem placeholder_key_is_inner (v : String) (paramMap : JsObj)
    (hmatch : matchesPlaceholder v = true) :
    placeholderExec v.data = some (innerKey v).data ∧
      resolveValue v paramMap =
        if paramMap.hasOwn (innerKey v) then
          { isPlaceholder := true
            resolvedValue := (paramMap.get? (innerKey v)).getD ""
            resolvedFrom := "parameters.prop" }
        else { isPlaceholder := true, resolvedValue := v, resolvedFrom := "NOT_FOUND" } := by
  unfold matchesPlaceholder at hmatch
  obtain ⟨key, hkey⟩ := Option.isSome_iff_exists.mp hmatch
  have hv := ((placeholderExec_eq_some_iff _ _).mp hkey).1
  have hinner : innerKey v = String.mk key := by
    unfold innerKey
    rw [hv]
    congr 1
    simp [List.dropLast_append_of_ne_nil]
  constructor
  · rw [hkey, hinner]
  · unfold resolveValue
    rw [hkey, hinner]

/-- Witness for C19: inner texts that hold braces and blanks are looked up
whole. -/
theorem placeholder_key_is_inner_witness :
    resolveValue "\x7b\x7ba\x7d\x7db\x7d\x7d" [("a", "short"), ("a\x7d\x7db", "whole")] =
        { isPlaceholder := true, resolvedValue := "whole", resolvedFrom := "parameters.prop" } ∧
      resolveValue "\x7b\x7b\x7bx\x7d\x7d\x7d" [("x", "short"), ("\x7bx\x7d", "whole")] =
        { isPlaceholder := true, resolvedValue := "whole", resolvedFrom := "parameters.prop" } ∧
      resolveValue "\x7b\x7b a \x7d\x7d" [("a", "trimmed")] =
        { isPlaceholder := true, resolvedValue := "\x7b\x7b a \x7d\x7d",
          resolvedFrom := "NOT_FOUND" } :=
  ⟨(placeholder_key_is_inner "\x7b\x7ba\x7d\x7db\x7d\x7d"
      [("a", "short"), ("a\x7d\x7db", "whole")] (by decide)).2.trans (by decide),
   (placeholder_key_is_inner "\x7b\x7b\x7bx\x7d\x7d\x7d"
      [("x", "short"), ("\x7bx\x7d", "whole")] (by decide)).2.trans (by decide),
   (placeholder_key_is_inner "\x7b\x7b a \x7d\x7d" [("a", "trimmed")] (by decide)).2.trans
      (by decide)⟩

/-! ## Section 12: invariants of the extracted records and the header count -/

theorem parseHeaderTable_eq_filterMap (parseXml : XmlParser) (rawXmlValue caId caName : String)
    (paramMap : JsObj) :
    parseHeaderTable parseXml rawXmlValue caId caName paramMap =
      (decodedRows parseXml rawXmlValue).filterMap (rowRecord? caId caName paramMap) := by
  unfold parseHeaderTable decodedRows
  simp only []
  by_cases hblank : jsTrim rawXmlValue = ""
  · rw [if_pos hblank, if_pos hblank]
    rfl
  · rw [if_neg hblank, if_neg hblank]
    cases parseXml (wrapTable rawXmlValue) with
    | error e => rfl
    | ok parsed =>
      simp only []
      rw [foldl_append_eq_flatMap _ _ (rowStep_eq caId caName paramMap), List.nil_append,
        flatMap_toList_eq_filterMap]

theorem decodedRows_blank (parseXml : XmlParser) (rawXmlValue : String)
    (hblank : jsTrim rawXmlValue = "") : decodedRows parseXml rawXmlValue = [] := by
  unfold decodedRows
  rw [if_pos hblank]

theorem extractHeaders_ok_eq (parseXml : XmlParser) (iflwParsed : IflwParsed)
    (paramMap : JsObj) (rs : List HeaderRecord)
    (hok : extractHeaders parseXml iflwParsed paramMap = .ok rs) :
    rs = (navigatorCAs iflwParsed).flatMap
      (fun ca => processCallActivities parseXml [ca] paramMap) := by
  unfold extractHeaders at hok
  simp only [] at hok
  split at hok
  · cases hok
  · injection hok with hok
    rw [← hok, foldl_append_eq_flatMap _
      (fun process => processCallActivities parseXml (allCAs process) paramMap)
      (fun _ _ => rfl), List.nil_append]
    unfold navigatorCAs
    rw [List.flatMap_assoc]
    apply List.flatMap_congr
    intro process _
    exact processCallActivities_eq_flatMap_single parseXml _ paramMap

theorem resolveValue_not_found (v : String) (paramMap : JsObj)
    (h : (resolveValue v paramMap).resolvedFrom = "NOT_FOUND") :
    (resolveValue v paramMap).isPlaceholder = true ∧
      (resolveValue v paramMap).resolvedValue = v := by
  unfold resolveValue at h ⊢
  cases hex : placeholderExec v.data with
  | none =>
    rw [hex] at h
    simp at h
  | some key =>
    rw [hex] at h
    simp only [] at h ⊢
    by_cases hown : JsObj.hasOwn paramMap (String.mk key) = true
    · rw [if_pos hown] at h
      simp at h
    · rw [if_neg hown]
      exact ⟨rfl, rfl⟩

theorem rowRecord?_eq_some (caId caName : String) (paramMap : JsObj) (row : Row)
    (r : HeaderRecord) (h : rowRecord? caId caName paramMap row = some r) :
    lastCellText (row.cell.getD []) "Name" = some r.headerName ∧
      r.resolvedValue = (resolveValue r.rawValue paramMap).resolvedValue ∧
      r.isPlaceholder = (resolveValue r.rawValue paramMap).isPlaceholder ∧
      r.resolvedFrom = (resolveValue r.rawValue paramMap).resolvedFrom := by
  unfold rowRecord? at h
  cases hname : lastCellText (row.cell.getD []) "Name" with
  | none =>
    rw [hname] at h
    cases h
  | some headerName =>
    rw [hname] at h
    simp only [] at h
    injection h with h
    subst h
    exact ⟨rfl, rfl, rfl, rfl⟩

/-- A property of records that holds of every sentinel and of every record of
a decoded row holds of every record `extractHeaders` returns. -/
theorem extractHeaders_forall (parseXml : XmlParser) (iflwParsed : IflwParsed)
    (paramMap : JsObj) (rs : List HeaderRecord) (P : HeaderRecord → Prop)
    (hok : extractHeaders parseXml iflwParsed paramMap = .ok rs)
    (hsentinel : ∀ caId caName, P (sentinelRecord caId caName))
    (hrow : ∀ caId caName row r, rowRecord? caId caName paramMap row = some r → P r) :
    ∀ r ∈ rs, P r := by
  intro r hr
  rw [extractHeaders_ok_eq parseXml iflwParsed paramMap rs hok, List.mem_flatMap] at hr
  obtain ⟨ca, -, hr⟩ := hr
  rw [caRecords_eq_headerTables, List.mem_flatMap] at hr
  obtain ⟨prop, -, hr⟩ := hr
  by_cases hblank : jsTrim (rawText prop) = ""
  · rw [if_pos hblank, List.mem_singleton] at hr
    rw [hr]
    exact hsentinel _ _
  · rw [if_neg hblank, parseHeaderTable_eq_filterMap, List.mem_filterMap] at hr
    obtain ⟨row, -, hrow'⟩ := hr
    exact hrow _ _ row r hrow'

/-- C15: every record `extractHeaders` returns, real or sentinel, whose
`resolvedFrom` is `NOT_FOUND` has `isPlaceholder = true` and a `resolvedValue`
equal to its `rawValue`. -/
theorem not_found_keeps_raw_value (parseXml : XmlParser) (iflwParsed : IflwParsed)
    (paramMap : JsObj) (rs : List HeaderRecord)
    (hok : extractHeaders parseXml iflwParsed paramMap = .ok rs) :
    ∀ r ∈ rs, r.resolvedFrom = "NOT_FOUND" →
      r.isPlaceholder = true ∧ r.resolvedValue = r.rawValue := by
  refine extractHeaders_forall parseXml iflwParsed paramMap rs
    (fun r => r.resolvedFrom = "NOT_FOUND" → r.isPlaceholder = true ∧ r.resolvedValue = r.rawValue)
    hok ?_ ?_
  · intro caId caName h
    have hdirect : (sentinelRecord caId caName).resolvedFrom = "direct" := rfl
    rw [hdirect] at h
    simp at h
  · intro caId caName row r hr hnf
    obtain ⟨-, hv, hp, hf⟩ := rowRecord?_eq_some caId caName paramMap row r hr
    rw [hf] at hnf
    rw [hv, hp]
    exact resolveValue_not_found _ _ hnf

/-- Witness for C15: in the sample document the record of `H1` is returned
unresolved on the empty map; it is a placeholder and keeps its raw value. -/
theorem not_found_keeps_raw_value_witness :
    sampleUnresolved ∈ sampleRecords ∧
      extractHeaders sampleParser sampleDocument [] = .ok sampleRecords ∧
      sampleUnresolved.resolvedFrom = "NOT_FOUND" ∧
      sampleUnresolved.isPlaceholder = true ∧
      sampleUnresolved.resolvedValue = sampleUnresolved.rawValue :=
  ⟨by decide, rfl, rfl,
   not_found_keeps_raw_value sampleParser sampleDocument [] sampleRecords rfl
     sampleUnresolved (by decide) rfl⟩

theorem countP_flatMap_eq_sum {α β : Type} (q : β → Bool) (f : α → List β) (xs : List α) :
    (xs.flatMap f).countP q = (xs.map (fun x => (f x).countP q)).sum := by
  induction xs with
  | nil => rfl
  | cons x xs ih => simp [List.flatMap_cons, List.countP_append, ih]

theorem countP_filterMap_eq {α β : Type} (q : β → Bool) (c : α → Bool) (g : α → Option β)
    (xs : List α) (hnone : ∀ x, g x = none → c x = false)
    (hsome : ∀ x y, g x = some y → q y = c x) :
    (xs.filterMap g).countP q = xs.countP c := by
  induction xs with
  | nil => rfl
  | cons x xs ih =>
    cases hg : g x with
    | none =>
      rw [List.filterMap_cons_none hg, ih, List.countP_cons, hnone x hg]
      simp
    | some y =>
      rw [List.filterMap_cons_some hg, List.countP_cons, List.countP_cons, ih, hsome x y hg]

theorem headerCount_eq_countP (rs : List HeaderRecord) :
    headerCount rs = rs.countP (fun r => decide (r.headerName ≠ "(empty headerTable)")) := by
  unfold headerCount
  rw [List.countP_eq_length_filter]

theorem hasCountedName_eq_hasNameCell (row : Row)
    (h : lastCellText (row.cell.getD []) "Name" ≠ some "(empty headerTable)") :
    hasCountedName row = hasNameCell row := by
  unfold hasCountedName hasNameCell
  unfold lastCellText at h ⊢
  cases hl : (List.filter (fun c => decide (c.id = some "Name")) (row.cell.getD [])).getLast? with
  | none =>
    rw [List.getLast?_eq_none_iff, List.filter_eq_nil_iff] at hl
    simp only [Option.map_none']
    symm
    rw [List.any_eq_false]
    intro c hc
    exact hl c hc
  | some c =>
    rw [hl] at h
    simp only [Option.map_some'] at h ⊢
    have hmem := List.mem_of_getLast?_eq_some hl
    rw [List.mem_filter] at hmem
    have hany : (row.cell.getD []).any (fun c => decide (c.id = some "Name")) = true :=
      List.any_eq_true.mpr ⟨c, hmem.1, hmem.2⟩
    rw [hany]
    have hne : c.text.getD "" ≠ "(empty headerTable)" := fun heq => h (congrArg some heq)
    simpa using hne

/-- C13, as stated, fails: a decoded row whose `Name` cell holds the text
`(empty headerTable)` is a real header row, but its record is left out of the
count, which is 0 for a document with one such row. -/
theorem headerCount_counterexample :
    ¬ ∀ (parseXml : XmlParser) (iflwParsed : IflwParsed) (paramMap : JsObj)
        (rs : List HeaderRecord),
        extractHeaders parseXml iflwParsed paramMap = .ok rs →
        headerCount rs = (allDecodedRows parseXml iflwParsed).countP hasNameCell := by
  intro h
  have h1 := h reservedNameParser sampleDocument [] _ rfl
  revert h1
  decide

/-- C13, amended: the header count is the number of decoded rows that have a
`Name` cell whose text is not `(empty headerTable)`: every sentinel record is
left out and every real header row with another name is counted; when no
decoded row bears the reserved name, the count is the number of decoded rows
that have a `Name` cell. -/
theorem headerCount_eq_counted_rows (parseXml : XmlParser) (iflwParsed : IflwParsed)
    (paramMap : JsObj) (rs : List HeaderRecord)
    (hok : extractHeaders parseXml iflwParsed paramMap = .ok rs) :
    headerCount rs = (allDecodedRows parseXml iflwParsed).countP hasCountedName ∧
      ((∀ row ∈ allDecodedRows parseXml iflwParsed,
          lastCellText (row.cell.getD []) "Name" ≠ some "(empty headerTable)") →
        headerCount rs = (allDecodedRows parseXml iflwParsed).countP hasNameCell) := by
  have hmain : headerCount rs = (allDecodedRows parseXml iflwParsed).countP hasCountedName := by
    rw [headerCount_eq_countP, extractHeaders_ok_eq parseXml iflwParsed paramMap rs hok]
    unfold allDecodedRows
    rw [countP_flatMap_eq_sum, countP_flatMap_eq_sum]
    congr 1
    apply List.map_congr_left
    intro ca _
    rw [caRecords_eq_headerTables, countP_flatMap_eq_sum, countP_flatMap_eq_sum]
    congr 1
    apply List.map_congr_left
    intro prop _
    by_cases hblank : jsTrim (rawText prop) = ""
    · rw [if_pos hblank, decodedRows_blank parseXml _ hblank]
      rfl
    · rw [if_neg hblank, parseHeaderTable_eq_filterMap]
      apply countP_filterMap_eq
      · intro row hnone
        unfold rowRecord? at hnone
        unfold hasCountedName
        cases hname : lastCellText (row.cell.getD []) "Name" with
        | none => rfl
        | some n =>
          rw [hname] at hnone
          cases hnone
      · intro row r hr
        have hname := (rowRecord?_eq_some _ _ paramMap row r hr).1
        unfold hasCountedName
        rw [hname]
  refine ⟨hmain, ?_⟩
  intro hfree
  rw [hmain]
  apply List.countP_congr
  intro row hrow
  rw [hasCountedName_eq_hasNameCell row (hfree row hrow)]

/-- Witness for C13: the sample document has three header rows with a `Name`
cell (`H1`, the empty name, `H2`) and the count is 3. -/
theorem headerCount_eq_counted_rows_witness :
    headerCount
        [{ callActivityId := "A", callActivityName := "Direct", headerName := "H1",
           rawValue := "\x7b\x7bK\x7d\x7d", resolvedValue := "\x7b\x7bK\x7d\x7d",
           isPlaceholder := true, resolvedFrom := "NOT_FOUND" },
         { callActivityId := "A", callActivityName := "Direct", headerName := "",
           rawValue := "", resolvedValue := "", isPlaceholder := false,
           resolvedFrom := "direct" },
         { callActivityId := "B", callActivityName := "Nested", headerName := "H2",
           rawValue := "v2", resolvedValue := "v2", isPlaceholder := false,
           resolvedFrom := "direct" }] = 3 :=
  (headerCount_eq_counted_rows sampleParser sampleDocument [] _ rfl).1.trans (by decide)

/-! ## Section 13: `parsePropContent` -/

theorem not_bne_eq_beq :
    (fun a : Char => !(a != '=')) = (fun c : Char => c == '=') := by
  funext a
  simp [bne]

theorem propLineStep_eq (map : JsObj) (rawLine : String) :
    propLineStep map rawLine =
      match propEntry? rawLine with
      | none => map
      | some e => JsObj.set map e.1 e.2 := by
  unfold propLineStep propEntry? indexOfEq
  simp only []
  by_cases hblank : jsTrim rawLine = ""
  · have hdata : (jsTrim rawLine).data = [] := by rw [hblank]
    rw [if_pos (Or.inl hblank), if_pos hdata]
  · have hdata : ¬ (jsTrim rawLine).data = [] := fun h => hblank (String.ext h)
    by_cases hhash : (jsTrim rawLine).data.head? = some '#'
    · rw [if_pos (Or.inr hhash), if_neg hdata, if_pos hhash]
    · rw [if_neg (fun h => h.elim hblank hhash), if_neg hdata, if_neg hhash]
      by_cases heq : '=' ∈ (jsTrim rawLine).data
      · have hlt : List.findIdx (fun c => c == '=') (jsTrim rawLine).data
            < (jsTrim rawLine).data.length :=
          List.findIdx_lt_length.mpr ⟨'=', heq, by simp⟩
        rw [if_pos hlt, if_pos heq]
        simp only []
        rw [List.takeWhile_eq_take_findIdx_not, List.dropWhile_eq_drop_findIdx_not,
          not_bne_eq_beq, List.drop_drop]
      · have hge : ¬ List.findIdx (fun c => c == '=') (jsTrim rawLine).data
            < (jsTrim rawLine).data.length := by
          rw [List.findIdx_lt_length]
          rintro ⟨c, hc, hp⟩
          have : c = '=' := by simpa using hp
          exact heq (this ▸ hc)
        rw [if_neg hge, if_neg heq]

theorem foldl_set_get? (entries : List (String × String)) (k : String)
    (hk : k ≠ "__proto__") :
    (entries.foldl (fun (map : JsObj) (e : String × String) => JsObj.set map e.1 e.2) ([] : JsObj)).get? k =
      ((entries.filter (fun e => decide (e.1 = k))).getLast?).map (fun e => e.2) := by
  induction entries using List.reverseRecOn with
  | nil => rfl
  | append_singleton entries e ih =>
    rw [List.foldl_append, List.foldl_cons, List.foldl_nil, List.filter_append]
    by_cases hp : e.1 = "__proto__"
    · have hne : ¬ e.1 = k := fun h => hk (h ▸ hp)
      rw [hp, get?_set_proto, ih]
      simp [hne]
    · rw [get?_set _ _ _ _ hp, ih]
      by_cases hek : e.1 = k
      · simp [hek]
      · have hke : ¬ k = e.1 := fun h => hek h.symm
        simp [hek, hke]

theorem foldl_propLineStep (lines : List String) (map : JsObj) :
    lines.foldl propLineStep map =
      (lines.filterMap propEntry?).foldl (fun (map : JsObj) (e : String × String) => JsObj.set map e.1 e.2) map := by
  induction lines generalizing map with
  | nil => rfl
  | cons line lines ih =>
    rw [List.foldl_cons, ih, propLineStep_eq]
    cases hentry : propEntry? line with
    | none => rw [List.filterMap_cons_none hentry]
    | some e => rw [List.filterMap_cons_some hentry, List.foldl_cons]

/-- For every key but `__proto__` the map holds what the specification says:
the value of the last line whose entry has the key, and no value when no line
has it. -/
theorem parsePropContent_get? (content k : String) (hk : k ≠ "__proto__") :
    (parsePropContent content).get? k = lastEntryValue content k := by
  unfold parsePropContent lastEntryValue
  rw [foldl_propLineStep, foldl_set_get? _ k hk]

/-- C17 fails on the code for the key `__proto__`: the line `__proto__=x` is
non-blank, no comment and holds `=`, so the specification gives the key
`__proto__` the value `x`; the assignment `map[key] = value` on a plain object
creates no own property for that key, the returned map is empty, and a
placeholder on that key is reported as `NOT_FOUND`. -/
theorem parsePropContent_drops_proto :
    lastEntryValue "__proto__=x" "__proto__" = some "x" ∧
      parsePropContent "__proto__=x" = [] ∧
      (parsePropContent "__proto__=x").hasOwn "__proto__" = false ∧
      resolveValue "\x7b\x7b__proto__\x7d\x7d" (parsePropContent "__proto__=x") =
        { isPlaceholder := true, resolvedValue := "\x7b\x7b__proto__\x7d\x7d",
          resolvedFrom := "NOT_FOUND" } := by
  decide

/-! ## Section 14: the `/extract` handler -/

theorem extractLoop_foldl (pipeline : String → String → Except ExtractorError (List HeaderRecord))
    (token : String) (iflows : List String) (st : LoopState) :
    iflows.foldl (iflowStep pipeline token) st =
      { failed := st.failed ++ iflows.filterMap (fun iflowName =>
          match pipeline iflowName token with
          | .ok _ => none
          | .error err => some { iflow := iflowName, error := buildErrorMessage err })
        batchResults := st.batchResults ++ iflows.filterMap (fun iflowName =>
          match pipeline iflowName token with
          | .ok results => some { iflowName := iflowName, results := results }
          | .error _ => none) } := by
  induction iflows generalizing st with
  | nil => simp
  | cons n ns ih =>
    rw [List.foldl_cons, ih]
    unfold iflowStep runExtractor
    cases hp : pipeline n token with
    | error err => simp [hp]
    | ok results => simp [hp]

theorem filterMap_failed_names
    (pipeline : String → String → Except ExtractorError (List HeaderRecord))
    (token : String) (iflows : List String) :
    (iflows.filterMap (fun iflowName =>
        match pipeline iflowName token with
        | .ok _ => (none : Option FailedEntry)
        | .error err => some { iflow := iflowName, error := buildErrorMessage err })).map
        (fun f => f.iflow) =
      iflows.filter (fun n => !extractionSucceeds pipeline token n) := by
  induction iflows with
  | nil => rfl
  | cons n ns ih =>
    cases hp : pipeline n token with
    | error err =>
      have hs : extractionSucceeds pipeline token n = false := by
        unfold extractionSucceeds
        rw [hp]
      simp [List.filterMap_cons, List.filter_cons, hp, hs, ih]
    | ok results =>
      have hs : extractionSucceeds pipeline token n = true := by
        unfold extractionSucceeds
        rw [hp]
      simp [List.filterMap_cons, List.filter_cons, hp, hs, ih]

theorem filterMap_batch_names
    (pipeline : String → String → Except ExtractorError (List HeaderRecord))
    (token : String) (iflows : List String) :
    (iflows.filterMap (fun iflowName =>
        match pipeline iflowName token with
        | .ok results => some ({ iflowName := iflowName, results := results } : BatchEntry)
        | .error _ => none)).map (fun b => b.iflowName) =
      iflows.filter (fun n => extractionSucceeds pipeline token n) := by
  induction iflows with
  | nil => rfl
  | cons n ns ih =>
    cases hp : pipeline n token with
    | error err =>
      have hs : extractionSucceeds pipeline token n = false := by
        unfold extractionSucceeds
        rw [hp]
      simp [List.filterMap_cons, List.filter_cons, hp, hs, ih]
    | ok results =>
      have hs : extractionSucceeds pipeline token n = true := by
        unfold extractionSucceeds
        rw [hp]
      simp [List.filterMap_cons, List.filter_cons, hp, hs, ih]

theorem filter_length_add_filter_not {α : Type} (p : α → Bool) (xs : List α) :
    (xs.filter p).length + (xs.filter (fun x => !p x)).length = xs.length := by
  induction xs with
  | nil => rfl
  | cons x xs ih =>
    cases hp : p x <;> simp [List.filter_cons, hp] <;> omega

/-- C14: with the token obtained, the loop runs the extractor on every
requested name: the success list holds, in request order, exactly the names
whose extraction succeeds, the failed list holds, in request order, exactly the
names whose extraction fails, whatever the other names do; the two lists
together have as many entries as there are requested names, every summary the
handler sends has `total` the number of requested names and
`processed + failed = total`, and for a non-empty request the handler sends
the completed response with that summary whenever the export does not reject. -/
theorem extract_isolates_failures
    (pipeline : String → String → Except ExtractorError (List HeaderRecord))
    (exportBatch : List BatchEntry → Except String String) (token : String)
    (iflows : List String) :
    (extractLoop pipeline token iflows).batchResults.map (fun b => b.iflowName) =
        iflows.filter (fun n => extractionSucceeds pipeline token n) ∧
      (extractLoop pipeline token iflows).failed.map (fun f => f.iflow) =
        iflows.filter (fun n => !extractionSucceeds pipeline token n) ∧
      (extractLoop pipeline token iflows).batchResults.length +
        (extractLoop pipeline token iflows).failed.length = iflows.length ∧
      (∀ file summary failed,
        postExtract (some iflows) (.ok token) pipeline exportBatch =
          .completed file summary failed →
        summary.total = iflows.length ∧
          summary.processed = (extractLoop pipeline token iflows).batchResults.length ∧
          summary.failed = (extractLoop pipeline token iflows).failed.length ∧
          summary.processed + summary.failed = summary.total) ∧
      (iflows ≠ [] →
        (∀ message, exportBatch (extractLoop pipeline token iflows).batchResults ≠
          .error message) →
        ∃ file failed,
          postExtract (some iflows) (.ok token) pipeline exportBatch =
            .completed file
              { total := iflows.length
                processed := (extractLoop pipeline token iflows).batchResults.length
                failed := (extractLoop pipeline token iflows).failed.length }
              failed) := by
  have hbatch : (extractLoop pipeline token iflows).batchResults.map (fun b => b.iflowName) =
      iflows.filter (fun n => extractionSucceeds pipeline token n) := by
    unfold extractLoop
    rw [extractLoop_foldl]
    simp only [List.nil_append]
    exact filterMap_batch_names pipeline token iflows
  have hfailed : (extractLoop pipeline token iflows).failed.map (fun f => f.iflow) =
      iflows.filter (fun n => !extractionSucceeds pipeline token n) := by
    unfold extractLoop
    rw [extractLoop_foldl]
    simp only [List.nil_append]
    exact filterMap_failed_names pipeline token iflows
  have hlen : (extractLoop pipeline token iflows).batchResults.length +
      (extractLoop pipeline token iflows).failed.length = iflows.length := by
    have h1 := congrArg List.length hbatch
    have h2 := congrArg List.length hfailed
    rw [List.length_map] at h1 h2
    rw [h1, h2]
    exact filter_length_add_filter_not _ iflows
  refine ⟨hbatch, hfailed, hlen, ?_, ?_⟩
  · intro file summary failed hresp
    unfold postExtract at hresp
    simp only [] at hresp
    split at hresp
    · cases hresp
    · split at hresp
      · cases hresp
      · injection hresp with _ hsum _
        subst hsum
        exact ⟨rfl, rfl, rfl, hlen⟩
  · intro hne hexport
    have hlen0 : ¬ iflows.length = 0 := by
      intro h
      exact hne (List.length_eq_zero.mp h)
    unfold postExtract
    simp only []
    rw [if_neg hlen0]
    by_cases hpos : (extractLoop pipeline token iflows).batchResults.length > 0
    · rw [if_pos hpos]
      cases hx : exportBatch (extractLoop pipeline token iflows).batchResults with
      | error message => exact absurd hx (hexport message)
      | ok path => exact ⟨_, _, rfl⟩
    · rw [if_neg hpos]
      exact ⟨_, _, rfl⟩

/-- Witness for C14: of three requested iflows the second fails; the first and
the third are extracted, and the summary counts 3 = 2 + 1. -/
theorem extract_isolates_failures_witness :
    postExtract (some ["First", "Bad", "Third"]) (.ok "token") samplePipeline
        (fun _ => .ok "CPI_Headers_Extract.xlsx") =
      .completed (some "CPI_Headers_Extract.xlsx") { total := 3, processed := 2, failed := 1 }
        (some [{ iflow := "Bad", error := "HTTP 404 — not found" }]) ∧
      (extractLoop samplePipeline "token" ["First", "Bad", "Third"]).batchResults.map
        (fun b => b.iflowName) = ["First", "Third"] :=
  ⟨by decide,
   (extract_isolates_failures samplePipeline (fun _ => .ok "CPI_Headers_Extract.xlsx") "token"
      ["First", "Bad", "Third"]).1.trans (by decide)⟩

/-! ## Section 15: `exportBatchToExcel` -/

theorem exportRowStep_hasColumnKeys (iflowName : String) (ws : Worksheet) (row : HeaderRecord) :
    (exportRowStep iflowName ws row).hasColumnKeys = ws.hasColumnKeys := by
  unfold exportRowStep
  split <;> rfl

theorem exportRowStep_rows_length (iflowName : String) (ws : Worksheet) (row : HeaderRecord) :
    (exportRowStep iflowName ws row).rows.length =
      ws.rows.length + if row.headerName = "(empty headerTable)" then 0 else 1 := by
  unfold exportRowStep
  by_cases h : row.headerName = "(empty headerTable)"
  · rw [if_pos h, if_pos h]
    rfl
  · rw [if_neg h, if_neg h]
    simp [Worksheet.addRow]

theorem foldl_exportRowStep_rows_length (iflowName : String) (results : List HeaderRecord)
    (ws : Worksheet) :
    (results.foldl (exportRowStep iflowName) ws).rows.length =
      ws.rows.length + headerCount results := by
  induction results generalizing ws with
  | nil => rfl
  | cons r rs ih =>
    rw [List.foldl_cons, ih, exportRowStep_rows_length, headerCount_eq_countP,
      headerCount_eq_countP, List.countP_cons]
    by_cases h : r.headerName = "(empty headerTable)"
    · simp [h]
    · simp [h]
      omega

/-- The number of rows `exportBatchToExcel` appends is the number of records
that are not named `(empty headerTable)`: a sentinel record adds no row. -/
theorem exportBatchToExcel_rows_length (file : OutputFile) (batchResults : List BatchEntry) :
    (exportBatchToExcel file batchResults).rows.length =
      (openWorksheet file).rows.length +
        (batchResults.map (fun entry => headerCount entry.results)).sum := by
  unfold exportBatchToExcel
  generalize openWorksheet file = ws
  induction batchResults generalizing ws with
  | nil => rfl
  | cons entry entries ih =>
    rw [List.foldl_cons, ih, foldl_exportRowStep_rows_length, List.map_cons, List.sum_cons]
    omega

/-- The two paths of the export on one real record: on an absent file the row is
appended filled, on a `Headers` sheet read from an existing file it is appended
without cells. -/
theorem exportBatchToExcel_paths :
    (exportBatchToExcel .absent
        [{ iflowName := "F5", results := [sampleUnresolved] }]).rows =
        [some headerRow, some (sheetRowOf "F5" sampleUnresolved)] ∧
      (exportBatchToExcel (.withSheet [some headerRow])
        [{ iflowName := "F5", results := [sampleUnresolved] }]).rows =
        [some headerRow, none] := by
  decide

/-- C18 fails on the code: for a batch whose only record is the sentinel of a
call-activity, `exportBatchToExcel` appends no row, whatever output file it
finds; on an absent file the sheet written holds the header row alone. -/
theorem export_drops_sentinel :
    (∀ file : OutputFile,
        (exportBatchToExcel file sentinelBatch).rows = (openWorksheet file).rows) ∧
      (exportBatchToExcel .absent sentinelBatch).rows = [some headerRow] ∧
      (exportBatchToExcel (.withSheet [some headerRow]) sentinelBatch).rows =
        [some headerRow] := by
  refine ⟨?_, rfl, rfl⟩
  intro file
  rfl

end CpiExtractor
